import Mathlib

/-
Verification of the LinkedIn export pipeline
(scripts parse_export.py, analyze.py, sanitize.py, generate_viz.py).

The Python functions are shallowly embedded as executable Lean
definitions.  Strings are Lean strings, Python dict rows are association
lists, datetimes are a record of calendar fields, the filesystem is a
partial map from paths to file contents, and Python functions that draw
randomness (random.Random choices) are parameterised by the stream of
draws they would consume.
-/

/-- Python string lowercasing of one character (ASCII case mapping, the
fragment of str.lower exercised by the pipeline data). -/
def pyLowerChar (c : Char) : Char :=
  if 65 ≤ c.toNat ∧ c.toNat ≤ 90 then Char.ofNat (c.toNat + 32) else c

/-- Model of Python str.lower. -/
def pyLower (s : String) : String := String.mk (s.toList.map pyLowerChar)

/-- Python str whitespace characters (those stripped by str.strip). -/
def isPySpace (c : Char) : Bool :=
  c == ' ' || c == '\t' || c == '\n' || c == '\r' || c == '\x0b' || c == '\x0c'

/-- Model of Python str.strip (no argument form). -/
def pyStrip (s : String) : String :=
  String.mk (((s.toList.dropWhile isPySpace).reverse.dropWhile isPySpace).reverse)

/-- Boolean test that pat is a leading segment of s. -/
def startsWithL : List Char → List Char → Bool
  | [], _ => true
  | _ :: _, [] => false
  | p :: ps, c :: cs => p == c && startsWithL ps cs

/-- Boolean substring test on character lists: models Python `pat in s`. -/
def containsL (pat : List Char) : List Char → Bool
  | [] => startsWithL pat []
  | c :: cs => startsWithL pat (c :: cs) || containsL pat (c :: cs).tail

/-- Model of the Python membership test `sub in s` on strings. -/
def pyContains (sub s : String) : Bool := containsL sub.toList s.toList

/-- Boolean test that suf is a trailing segment of s: models str.endswith. -/
def pyEndsWith (suf s : String) : Bool :=
  startsWithL suf.toList.reverse s.toList.reverse

/-- Scanner for Python str.replace with a nonempty pattern p :: ps:
left-to-right, non-overlapping occurrences.  A positive skip counter
means that many characters still belong to a matched occurrence and are
dropped without rescanning. -/
def replAux (p : Char) (ps rep : List Char) : Nat → List Char → List Char
  | _, [] => []
  | skip + 1, _ :: cs => replAux p ps rep skip cs
  | 0, c :: cs =>
    if startsWithL (p :: ps) (c :: cs) then
      rep ++ replAux p ps rep ps.length cs
    else
      c :: replAux p ps rep 0 cs

/-- Scanner for a nonempty pattern, starting with no pending skip. -/
def replaceScan (p : Char) (ps rep s : List Char) : List Char :=
  replAux p ps rep 0 s

/-- Model of Python s.replace(pat, rep): every occurrence, left to right,
non-overlapping; with an empty pattern the replacement is interleaved
around every character, as CPython does. -/
def pyReplace (s pat rep : String) : String :=
  match pat.toList with
  | [] => String.mk (rep.toList ++ (s.toList.map (fun c => c :: rep.toList)).flatten)
  | p :: ps => String.mk (replaceScan p ps rep.toList s.toList)

/-- A datetime.datetime value as produced by strptime in the pipeline. -/
structure PyDateTime where
  year : Nat
  month : Nat
  day : Nat
  hour : Nat
  minute : Nat
  second : Nat
deriving DecidableEq, Repr

/-- Days from civil epoch 1970-01-01 (Hinnant days-from-civil algorithm);
the arithmetic backing datetime subtraction. -/
def daysFromCivil (y m d : Int) : Int :=
  let yy := if m ≤ 2 then y - 1 else y
  let era := Int.fdiv yy 400
  let yoe := yy - era * 400
  let mp := Int.emod (m + 9) 12
  let doy := Int.fdiv (153 * mp + 2) 5 + d - 1
  let doe := yoe * 365 + Int.fdiv yoe 4 - Int.fdiv yoe 100 + doy
  era * 146097 + doe - 719468

/-- Seconds since the epoch of a datetime value; datetime comparison and
subtraction in the pipeline are modelled through this measure. -/
def toSecs (t : PyDateTime) : Int :=
  86400 * daysFromCivil (Int.ofNat t.year) (Int.ofNat t.month) (Int.ofNat t.day)
    + 3600 * (Int.ofNat t.hour) + 60 * (Int.ofNat t.minute) + (Int.ofNat t.second)

/-- Model of the Python comparison a < b on datetimes. -/
def dtLt (a b : PyDateTime) : Bool := decide (toSecs a < toSecs b)

/-- Model of (a - b).days for Python datetimes: floor of the difference in
whole days. -/
def timedeltaDays (a b : PyDateTime) : Int := Int.fdiv (toSecs a - toSecs b) 86400

/-- Gregorian leap-year test, as in datetime validation. -/
def isLeap (y : Nat) : Bool := y % 4 == 0 && (y % 100 != 0 || y % 400 == 0)

/-- Days in a month, as enforced by the datetime constructor. -/
def daysInMonth (y m : Nat) : Nat :=
  if m == 2 then (if isLeap y then 29 else 28)
  else if m == 4 || m == 6 || m == 9 || m == 11 then 30
  else 31

/-- ASCII decimal digit test, modelling the regex class backslash-d. -/
def isDigitC (c : Char) : Bool := '0' ≤ c && c ≤ '9'

/-- ASCII word-character test, modelling the regex class backslash-w. -/
def isWordC (c : Char) : Bool :=
  isDigitC c || ('a' ≤ c && c ≤ 'z') || ('A' ≤ c && c ≤ 'Z') || c == '_'

/-- Numeric value of a list of decimal digit characters. -/
def digitsToNat (l : List Char) : Nat :=
  l.foldl (fun acc c => acc * 10 + (c.toNat - 48)) 0

/-- Regex match for the pattern anchored d{1,2} s+ w{3} s+ d{4} from
parse_export._RE_DMY.  Because the character classes digit, space and
word are arranged so that each maximal span must be consumed exactly,
the greedy span test below is equivalent to the regex. -/
def matchDMY (l : List Char) : Bool :=
  let d1 := l.takeWhile isDigitC
  let r1 := l.dropWhile isDigitC
  let s1 := r1.takeWhile isPySpace
  let r2 := r1.dropWhile isPySpace
  let w1 := r2.takeWhile isWordC
  let r3 := r2.dropWhile isWordC
  let s2 := r3.takeWhile isPySpace
  let r4 := r3.dropWhile isPySpace
  let d2 := r4.takeWhile isDigitC
  let r5 := r4.dropWhile isDigitC
  decide (1 ≤ d1.length) && decide (d1.length ≤ 2) && decide (1 ≤ s1.length) &&
    (w1.length == 3) && decide (1 ≤ s2.length) && (d2.length == 4) && r5.isEmpty

/-- Regex match for the unanchored-suffix pattern d{4}-d{2}-d{2} at the
start of the string, from parse_export._RE_ISO. -/
def matchISO (l : List Char) : Bool :=
  match l with
  | a :: b :: c :: d :: '-' :: e :: f :: '-' :: g :: h :: _ =>
    isDigitC a && isDigitC b && isDigitC c && isDigitC d &&
      isDigitC e && isDigitC f && isDigitC g && isDigitC h
  | _ => false

/-- Month number of a three-letter month abbreviation, case-insensitively,
as matched by the strptime directive percent-b. -/
def monthOfAbbr (l : List Char) : Option Nat :=
  let s := String.mk (l.map pyLowerChar)
  let abbrs : List String :=
    ["jan", "feb", "mar", "apr", "may", "jun",
     "jul", "aug", "sep", "oct", "nov", "dec"]
  match abbrs.indexOf? s with
  | some i => some (i + 1)
  | none => none

/-- Model of datetime.strptime(raw, "%d %b %Y"): day of one or two digits
in 1..31, whitespace, month abbreviation, whitespace, four-digit year;
the datetime constructor then validates the day against the month. -/
def strptimeDMY (l : List Char) : Option PyDateTime :=
  let d1 := l.takeWhile isDigitC
  let r1 := l.dropWhile isDigitC
  let s1 := r1.takeWhile isPySpace
  let r2 := r1.dropWhile isPySpace
  let w1 := r2.takeWhile isWordC
  let r3 := r2.dropWhile isWordC
  let s2 := r3.takeWhile isPySpace
  let r4 := r3.dropWhile isPySpace
  let d2 := r4.takeWhile isDigitC
  let r5 := r4.dropWhile isDigitC
  let day := digitsToNat d1
  let year := digitsToNat d2
  if 1 ≤ d1.length ∧ d1.length ≤ 2 ∧ 1 ≤ s1.length ∧ w1.length = 3 ∧
      1 ≤ s2.length ∧ d2.length = 4 ∧ r5 = [] ∧ 1 ≤ day ∧ day ≤ 31 ∧ 1 ≤ year then
    match monthOfAbbr w1 with
    | none => none
    | some m => if day ≤ daysInMonth year m then
        some ⟨year, m, day, 0, 0, 0⟩ else none
  else none

/-- Shared date head of the two ISO strptime formats: four-digit year,
hyphen, one-or-two-digit month in 1..12, hyphen, one-or-two-digit day in
1..31.  Returns the fields and the unconsumed remainder. -/
def parseIsoDate (l : List Char) : Option (Nat × Nat × Nat × List Char) :=
  let y := l.takeWhile isDigitC
  let r1 := l.dropWhile isDigitC
  match r1 with
  | '-' :: r2 =>
    let mo := r2.takeWhile isDigitC
    let r3 := r2.dropWhile isDigitC
    match r3 with
    | '-' :: r4 =>
      let d := r4.takeWhile isDigitC
      let r5 := r4.dropWhile isDigitC
      let yv := digitsToNat y
      let mv := digitsToNat mo
      let dv := digitsToNat d
      if y.length = 4 ∧ 1 ≤ mo.length ∧ mo.length ≤ 2 ∧ 1 ≤ d.length ∧
          d.length ≤ 2 ∧ 1 ≤ mv ∧ mv ≤ 12 ∧ 1 ≤ dv ∧ dv ≤ 31 ∧ 1 ≤ yv ∧
          dv ≤ daysInMonth yv mv then
        some (yv, mv, dv, r5)
      else none
    | _ => none
  | _ => none

/-- Model of datetime.strptime(cleaned, "%Y-%m-%d %H:%M:%S"): the whole
string must be consumed. -/
def strptimeYmdHMS (l : List Char) : Option PyDateTime :=
  match parseIsoDate l with
  | none => none
  | some (yv, mv, dv, r5) =>
    let sp := r5.takeWhile isPySpace
    let r6 := r5.dropWhile isPySpace
    let hh := r6.takeWhile isDigitC
    let r7 := r6.dropWhile isDigitC
    match r7 with
    | ':' :: r8 =>
      let mi := r8.takeWhile isDigitC
      let r9 := r8.dropWhile isDigitC
      match r9 with
      | ':' :: r10 =>
        let ss := r10.takeWhile isDigitC
        let r11 := r10.dropWhile isDigitC
        let hv := digitsToNat hh
        let miv := digitsToNat mi
        let sv := digitsToNat ss
        if 1 ≤ sp.length ∧ 1 ≤ hh.length ∧ hh.length ≤ 2 ∧ hv ≤ 23 ∧
            1 ≤ mi.length ∧ mi.length ≤ 2 ∧ miv ≤ 59 ∧
            1 ≤ ss.length ∧ ss.length ≤ 2 ∧ sv ≤ 59 ∧ r11 = [] then
          some ⟨yv, mv, dv, hv, miv, sv⟩
        else none
      | _ => none
    | _ => none

/-- Model of datetime.strptime(cleaned, "%Y-%m-%d"): the whole string
must be consumed. -/
def strptimeYmd (l : List Char) : Option PyDateTime :=
  match parseIsoDate l with
  | none => none
  | some (yv, mv, dv, r5) =>
    if r5 = [] then some ⟨yv, mv, dv, 0, 0, 0⟩ else none

/-- Embedding of parse_export.parse_date.  None models a Python None
argument; any exception raised inside the Python body is caught there and
turned into None, so the embedding returns an Option directly. -/
def parse_date (raw : Option String) : Option PyDateTime :=
  match raw with
  | none => none
  | some r0 =>
    if pyStrip r0 == "" then none
    else
      let raw1 := pyStrip r0
      if matchDMY raw1.toList then strptimeDMY raw1.toList
      else if matchISO raw1.toList then
        let cleaned := pyStrip (pyReplace raw1 " UTC" "")
        match strptimeYmdHMS cleaned.toList with
        | some dt => some dt
        | none => strptimeYmd cleaned.toList
      else none

example : parse_date (some "12 Jan 2024") = some ⟨2024, 1, 12, 0, 0, 0⟩ := by decide
example : parse_date (some "2024-01-12 08:30:45 UTC") = some ⟨2024, 1, 12, 8, 30, 45⟩ := by decide
example : parse_date (some "2024-01-12") = some ⟨2024, 1, 12, 0, 0, 0⟩ := by decide
example : parse_date (some "31 Feb 2024") = none := by decide
example : parse_date (some "29 Feb 2024") = some ⟨2024, 2, 29, 0, 0, 0⟩ := by decide
example : parse_date (some "not a date") = none := by decide
example : parse_date (some "   ") = none := by decide

/-- C2: parse_date is a total function: a None argument, an empty or
whitespace-only string, and any string matching neither the DMY regex
nor the ISO regex all yield None; no exception escapes (the embedding
returns an Option, and the non-matching branches are proven to produce
None). -/
theorem C2_parse_date_total :
    parse_date none = none ∧
    (∀ s, pyStrip s = "" → parse_date (some s) = none) ∧
    (∀ s, matchDMY (pyStrip s).toList = false → matchISO (pyStrip s).toList = false →
      parse_date (some s) = none) := by
  refine ⟨rfl, ?_, ?_⟩
  · intro s h
    simp [parse_date, h]
  · intro s h1 h2
    simp only [String.toList] at h1 h2
    by_cases hs : pyStrip s = ""
    · simp [parse_date, hs]
    · simp [parse_date, hs, h1, h2]

/-- C2 witness: the totality theorem applied at concrete inputs. -/
theorem C2_parse_date_total_witness :
    parse_date none = none ∧
    (pyStrip "  " = "" ∧ parse_date (some "  ") = none) ∧
    (matchDMY (pyStrip "hello world").toList = false ∧
      matchISO (pyStrip "hello world").toList = false ∧
      parse_date (some "hello world") = none) :=
  ⟨C2_parse_date_total.1,
   ⟨by decide, C2_parse_date_total.2.1 "  " (by decide)⟩,
   ⟨by decide, by decide,
    C2_parse_date_total.2.2 "hello world" (by decide) (by decide)⟩⟩

/-- The spam indicator phrase list SPAM_INDICATORS from analyze.py. -/
def SPAM_INDICATORS : List String :=
  ["i noticed your profile",
   "i came across your profile",
   "i saw your profile",
   "limited time",
   "exclusive opportunity",
   "are you open to",
   "we\x27re hiring",
   "we are hiring",
   "job opportunity",
   "perfect fit",
   "reaching out because",
   "thought you\x27d be interested",
   "hope this finds you well",
   "i\x27d love to connect",
   "open to exploring",
   "exciting opportunity",
   "top talent",
   "passive candidate",
   "impressive background",
   "quick question",
   "just following up",
   "checking in",
   "i help companies",
   "i help professionals",
   "revenue growth",
   "book a call",
   "schedule a chat",
   "free consultation",
   "free trial",
   "demo",
   "webinar",
   "download our",
   "unsubscribe",
   "opt out"]

/-- Number of distinct indicator phrases present in the lowercased
content, the generator-sum in analyze._is_spam. -/
def countSpamMatches (content : String) : Nat :=
  (SPAM_INDICATORS.filter (fun ind => pyContains ind (pyLower content))).length

/-- Embedding of analyze._is_spam. -/
def is_spam (content : String) : Bool :=
  let nMatches := countSpamMatches content
  decide (nMatches ≥ 2) || (decide (nMatches ≥ 1) && decide (content.length < 100))

/-- C3: _is_spam classifies content as noise iff at least two distinct
indicator phrases are present, or at least one is present and the
content is under 100 characters; in particular two distinct indicators
force the noise classification regardless of length. -/
theorem C3_is_spam_spec :
    ∀ content : String,
      (is_spam content = true ↔
        (2 ≤ countSpamMatches content ∨
          (1 ≤ countSpamMatches content ∧ content.length < 100))) ∧
      (2 ≤ countSpamMatches content → is_spam content = true) := by
  intro content
  constructor
  · simp [is_spam]
  · intro h
    simp [is_spam]
    omega

/-- C3 witness: a 118-character message containing the two distinct
indicators "demo" and "webinar" is classified as noise despite being at
least 100 characters long. -/
theorem C3_is_spam_spec_witness :
    2 ≤ countSpamMatches
      "Join our webinar on Tuesday for a live demo of the platform, with a question and answer session afterwards for everyone." ∧
    is_spam
      "Join our webinar on Tuesday for a live demo of the platform, with a question and answer session afterwards for everyone." = true :=
  ⟨by decide,
   (C3_is_spam_spec
      "Join our webinar on Tuesday for a live demo of the platform, with a question and answer session afterwards for everyone.").2
     (by decide)⟩

/-- Line-break characters recognised by Python str.splitlines. -/
def isLineBreakC (c : Char) : Bool :=
  c == '\n' || c == '\r' || c == '\x0b' || c == '\x0c' || c == '\x1c' ||
    c == '\x1d' || c == '\x1e' || c == '\x85' || c == '\u2028' || c == '\u2029'

/-- Model of Python str.splitlines(keepends=True) on character lists; cur
holds the current line reversed. -/
def splitlinesKeepC (cur : List Char) : List Char → List (List Char)
  | [] => if cur = [] then [] else [cur.reverse]
  | '\r' :: '\n' :: rest => (cur.reverse ++ ['\r', '\n']) :: splitlinesKeepC [] rest
  | c :: cs =>
    if isLineBreakC c then (cur.reverse ++ [c]) :: splitlinesKeepC [] cs
    else splitlinesKeepC (c :: cur) cs

/-- Model of Python text.splitlines(keepends=True). -/
def pySplitlinesKeep (s : String) : List String :=
  (splitlinesKeepC [] s.toList).map String.mk

/-- Normalises CRLF line endings to LF before CSV scanning (the csv
module treats both as record terminators). -/
def normNewlines : List Char → List Char
  | [] => []
  | '\r' :: '\n' :: rest => '\n' :: normNewlines rest
  | c :: cs => c :: normNewlines cs

/-- CSV reader automaton in the csv.reader dialect used by the pipeline:
comma delimiter, double-quote quoting, doubled quotes as escapes.  State
0 scans an unquoted field, state 1 is inside a quoted field, state 2 has
just seen a quote inside a quoted field (escape or close). -/
def csvAux (st : Nat) (field : List Char) (rec : List (List Char)) :
    List Char → List (List (List Char))
  | [] =>
    if st = 0 ∧ field = [] ∧ rec = [] then [] else [rec ++ [field]]
  | c :: cs =>
    if st = 1 then
      if c == '"' then csvAux 2 field rec cs
      else csvAux 1 (field ++ [c]) rec cs
    else if st = 2 then
      if c == '"' then csvAux 1 (field ++ ['"']) rec cs
      else if c == ',' then csvAux 0 [] (rec ++ [field]) cs
      else if c == '\n' || c == '\r' then (rec ++ [field]) :: csvAux 0 [] [] cs
      else csvAux 0 (field ++ [c]) rec cs
    else
      if c == ',' then csvAux 0 [] (rec ++ [field]) cs
      else if c == '\n' || c == '\r' then
        (if field = [] ∧ rec = [] then [] :: csvAux 0 [] [] cs
         else (rec ++ [field]) :: csvAux 0 [] [] cs)
      else if c == '"' && field.isEmpty then csvAux 1 [] rec cs
      else csvAux 0 (field ++ [c]) rec cs

/-- Records of a CSV text, as lists of field strings. -/
def csvRecords (l : List Char) : List (List String) :=
  (csvAux 0 [] [] (normNewlines l)).map (fun r => r.map String.mk)

/-- Model of csv.DictReader: the first record gives the field names, each
following non-empty record is paired with them; empty records are
skipped as DictReader does. -/
def dictReaderRows (l : List Char) : List (List String × List String) :=
  match csvRecords l with
  | [] => []
  | header :: rest =>
    (rest.filter (fun r => r ≠ [])).map (fun r => (header, r))

/-- Model of dict access row.get(key) on a DictReader row: values beyond
the header are dropped, missing trailing values are None, and a
duplicated header key keeps the last value, as dict(zip(...)) does. -/
def rowGet (hr : List String × List String) (key : String) : Option String :=
  let padded := hr.2.map some ++ List.replicate (hr.1.length - hr.2.length) (none : Option String)
  ((List.zip hr.1 padded).reverse.lookup key).join

/-- Embedding of parse_export._safe_strip. -/
def safeStrip (v : Option String) : String :=
  match v with
  | none => ""
  | some s => if s == "" then "" else pyStrip s

/-- Python `a or b or ... or ""` over optional strings: the first value
that is neither None nor empty, else the empty string. -/
def pyOrStr : List (Option String) → String
  | [] => ""
  | some s :: rest => if s == "" then pyOrStr rest else s
  | none :: rest => pyOrStr rest

/-- A parsed Connections.csv row (parse_export.parse_connections). -/
structure Connection where
  first_name : String
  last_name : String
  company : String
  position : String
  connected_on : Option PyDateTime
  email_address : String
deriving DecidableEq, Repr

/-- A parsed messages.csv row (parse_export.parse_messages). -/
structure Message where
  conversation_id : Option String
  sender : String
  date : Option PyDateTime
  subject : String
  content : String
deriving DecidableEq, Repr

/-- A parsed Invitations.csv row (parse_export.parse_invitations). -/
structure Invitation where
  from_name : String
  to_name : String
  date : Option PyDateTime
  direction : String
  message : String
deriving DecidableEq, Repr

/-- A parsed Company Follows.csv row. -/
structure CompanyFollow where
  company : String
  followed_on : Option PyDateTime
deriving DecidableEq, Repr

/-- A parsed Inferences_about_you.csv row. -/
structure Inference where
  category : String
  inference : String
  description : String
deriving DecidableEq, Repr

/-- The filesystem as a partial map from path strings to file contents;
Path.exists is modelled by the map being defined at the path. -/
def FS : Type := String → Option String

/-- Row-to-record mapping inside parse_connections. -/
def connOfRow (hr : List String × List String) : Connection :=
  { first_name := safeStrip (rowGet hr "First Name"),
    last_name := safeStrip (rowGet hr "Last Name"),
    company := safeStrip (rowGet hr "Company"),
    position := safeStrip (rowGet hr "Position"),
    connected_on := parse_date (rowGet hr "Connected On"),
    email_address := safeStrip (rowGet hr "Email Address") }

/-- The csv text handed to the DictReader by parse_connections: the
first 3 junk lines are skipped when more than 3 lines are present. -/
def connectionsCsvText (text : String) : String :=
  let lines := pySplitlinesKeep text
  if 3 < lines.length then String.join (lines.drop 3) else String.join lines

/-- Embedding of parse_export.parse_connections. -/
def parse_connections (fs : FS) (path : String) : List Connection :=
  match fs path with
  | none => []
  | some text => (dictReaderRows (connectionsCsvText text).toList).map connOfRow

/-- Row-to-record mapping inside parse_messages. -/
def msgOfRow (hr : List String × List String) : Message :=
  let conv := safeStrip (rowGet hr "CONVERSATION ID")
  { conversation_id := if conv == "" then none else some conv,
    sender := safeStrip (some (pyOrStr
      [rowGet hr "FROM", rowGet hr "SENDER PROFILE URL", rowGet hr "Sender"])),
    date := parse_date (some (pyOrStr [rowGet hr "DATE", rowGet hr "Date"])),
    subject := safeStrip (some (pyOrStr [rowGet hr "SUBJECT", rowGet hr "Subject"])),
    content := safeStrip (some (pyOrStr [rowGet hr "CONTENT", rowGet hr "Content"])) }

/-- Embedding of parse_export.parse_messages. -/
def parse_messages (fs : FS) (path : String) : List Message :=
  match fs path with
  | none => []
  | some text => (dictReaderRows text.toList).map msgOfRow

/-- Row-to-record mapping inside parse_invitations, including the
direction heuristic. -/
def invOfRow (hr : List String × List String) : Invitation :=
  let directionRaw := pyLower (safeStrip (rowGet hr "Direction"))
  let direction :=
    if pyContains "incoming" directionRaw || pyContains "inbound" directionRaw then
      "inbound"
    else if pyContains "outgoing" directionRaw || pyContains "outbound" directionRaw then
      "outbound"
    else if safeStrip (rowGet hr "From") ≠ "" then "inbound" else "outbound"
  { from_name := safeStrip (some (pyOrStr [rowGet hr "From", rowGet hr "From Name"])),
    to_name := safeStrip (some (pyOrStr [rowGet hr "To", rowGet hr "To Name"])),
    date := parse_date (some (pyOrStr [rowGet hr "Sent At", rowGet hr "Date"])),
    direction := direction,
    message := safeStrip (some (pyOrStr [rowGet hr "Message", rowGet hr "message"])) }

/-- Embedding of parse_export.parse_invitations. -/
def parse_invitations (fs : FS) (path : String) : List Invitation :=
  match fs path with
  | none => []
  | some text => (dictReaderRows text.toList).map invOfRow

/-- Embedding of parse_export.parse_company_follows. -/
def parse_company_follows (fs : FS) (path : String) : List CompanyFollow :=
  match fs path with
  | none => []
  | some text => (dictReaderRows text.toList).map (fun hr =>
      { company := safeStrip (some (pyOrStr
          [rowGet hr "Organization", rowGet hr "Company", rowGet hr "Organization Name"])),
        followed_on := parse_date (some (pyOrStr [rowGet hr "Followed On", rowGet hr "Date"])) })

/-- Embedding of parse_export.parse_inferences. -/
def parse_inferences (fs : FS) (path : String) : List Inference :=
  match fs path with
  | none => []
  | some text => (dictReaderRows text.toList).map (fun hr =>
      { category := safeStrip (some (pyOrStr [rowGet hr "Category", rowGet hr "Type"])),
        inference := safeStrip (some (pyOrStr
          [rowGet hr "Inference", rowGet hr "Description", rowGet hr "Type Description"])),
        description := safeStrip (some (pyOrStr [rowGet hr "Description"])) })

/-- ASCII lower-case alphanumeric test, the class kept by the
_normalise_ad_key substitution. -/
def isLowerAlnumC (c : Char) : Bool := ('a' ≤ c && c ≤ 'z') || isDigitC c

/-- Model of re.sub with pattern one-or-more non-[a-z0-9] replaced by a
single underscore: prevRun records whether the previous character was
part of a non-alphanumeric run. -/
def subNonAlnumAux (prevRun : Bool) : List Char → List Char
  | [] => []
  | c :: cs =>
    if isLowerAlnumC c then c :: subNonAlnumAux false cs
    else if prevRun then subNonAlnumAux true cs
    else '_' :: subNonAlnumAux true cs

/-- Embedding of parse_export._normalise_ad_key. -/
def normaliseAdKey (raw : String) : String :=
  let key0 := pyStrip (pyLower raw)
  let key1 := pyReplace key0 "member " ""
  let sub := subNonAlnumAux false key1.toList
  String.mk (((sub.dropWhile (fun c => c == '_')).reverse.dropWhile
    (fun c => c == '_')).reverse)

/-- Python value.split on a single semicolon separator. -/
def splitSemiAux (cur : List Char) : List Char → List (List Char)
  | [] => [cur]
  | ';' :: rest => cur :: splitSemiAux [] rest
  | c :: cs => splitSemiAux (cur ++ [c]) cs

/-- The semicolon-splitting list comprehension in parse_ad_targeting:
split on semicolons, strip each item, keep the non-empty ones. -/
def splitAdValues (v : String) : List String :=
  ((splitSemiAux [] v.toList).map (fun l => pyStrip (String.mk l))).filter
    (fun s => s ≠ "")

/-- Keys of a DictReader row in dict iteration order: header order with
later duplicates collapsed onto the first occurrence. -/
def dedupKeys : List String → List String
  | [] => []
  | k :: rest => k :: (dedupKeys rest).filter (fun x => x ≠ k)

/-- Assignment result[k] = v on an insertion-ordered association list. -/
def assocSetS (m : List (String × List String)) (k : String) (v : List String) :
    List (String × List String) :=
  if m.any (fun p => p.1 == k) then
    m.map (fun p => if p.1 == k then (k, v) else p)
  else m ++ [(k, v)]

/-- Embedding of parse_export.parse_ad_targeting: only the first data row
is processed (the loop breaks after it). -/
def parse_ad_targeting (fs : FS) (path : String) : List (String × List String) :=
  match fs path with
  | none => []
  | some text =>
    match dictReaderRows text.toList with
    | [] => []
    | hr :: _ =>
      (dedupKeys hr.1).foldl (fun result key =>
        if key == "" then result
        else
          let cleanKey := normaliseAdKey (pyStrip key)
          match rowGet hr key with
          | none => assocSetS result cleanKey []
          | some v =>
            if pyStrip v == "" then assocSetS result cleanKey []
            else assocSetS result cleanKey (splitAdValues v)) []

/-- C7: each individual parser returns an empty result and raises no
error when the path does not exist on disk. -/
theorem C7_missing_file_empty (fs : FS) (path : String) (h : fs path = none) :
    parse_connections fs path = [] ∧
    parse_messages fs path = [] ∧
    parse_invitations fs path = [] ∧
    parse_company_follows fs path = [] ∧
    parse_inferences fs path = [] ∧
    parse_ad_targeting fs path = [] := by
  refine ⟨?_, ?_, ?_, ?_, ?_, ?_⟩ <;>
    simp [parse_connections, parse_messages, parse_invitations,
      parse_company_follows, parse_inferences, parse_ad_targeting, h]

/-- C7 witness: the theorem applied to the empty filesystem. -/
theorem C7_missing_file_empty_witness :
    parse_connections (fun _ => none) "Connections.csv" = [] ∧
    parse_messages (fun _ => none) "Connections.csv" = [] ∧
    parse_invitations (fun _ => none) "Connections.csv" = [] ∧
    parse_company_follows (fun _ => none) "Connections.csv" = [] ∧
    parse_inferences (fun _ => none) "Connections.csv" = [] ∧
    parse_ad_targeting (fun _ => none) "Connections.csv" = [] :=
  C7_missing_file_empty (fun _ => none) "Connections.csv" rfl

/-- Concatenating the strings of a character-list decomposition. -/
theorem string_join_map_mk_go (xs : List (List Char)) (acc : List Char) :
    List.foldl (fun a b => a ++ b) (String.mk acc) (xs.map String.mk) =
      String.mk (acc ++ xs.flatten) := by
  induction xs generalizing acc with
  | nil => simp
  | cons x rest ih =>
    have hstep : String.mk acc ++ String.mk x = String.mk (acc ++ x) := rfl
    simp only [List.map_cons, List.foldl_cons, hstep, ih, List.flatten_cons,
      List.append_assoc]

/-- String.join over String.mk pieces is String.mk of the flattening. -/
theorem string_join_map_mk (xs : List (List Char)) :
    String.join (xs.map String.mk) = String.mk xs.flatten := by
  have h := string_join_map_mk_go xs []
  simpa [String.join] using h

set_option maxHeartbeats 2000000 in
/-- splitlines(keepends=True) decomposes the text: flattening the lines
restores the input (with the pending reversed prefix cur). -/
theorem splitlinesKeepC_flatten (cur l : List Char) :
    (splitlinesKeepC cur l).flatten = cur.reverse ++ l := by
  induction cur, l using splitlinesKeepC.induct with
  | case1 => rfl
  | case2 cur h => simp [splitlinesKeepC, h]
  | case3 cur rest ih => simp [splitlinesKeepC, ih]
  | case4 cur c cs hne hbr ih =>
    have he : splitlinesKeepC cur (c :: cs) =
        (cur.reverse ++ [c]) :: splitlinesKeepC [] cs := by
      rcases cs with _ | ⟨c2, cs2⟩
      · simp [splitlinesKeepC, hbr]
      · by_cases hcr : c = '\x0d' ∧ c2 = '\n'
        · exact ((hne cs2 hcr.1 (by rw [hcr.2])).elim)
        · rw [splitlinesKeepC.eq_def]
          simp_all
    simp [he, ih]
  | case5 cur c cs hne hbr ih =>
    have he : splitlinesKeepC cur (c :: cs) = splitlinesKeepC (c :: cur) cs := by
      rcases cs with _ | ⟨c2, cs2⟩
      · simp [splitlinesKeepC, hbr]
      · by_cases hcr : c = '\x0d' ∧ c2 = '\n'
        · exact ((hne cs2 hcr.1 (by rw [hcr.2])).elim)
        · rw [splitlinesKeepC.eq_def]
          simp_all
    rw [he, ih]
    simp

/-- C4: when the Connections.csv text has at least 4 lines (3 junk
header lines before the real CSV header), parse_connections hands the
DictReader exactly the text with the first 3 lines removed, so reading
begins at line 4; the skipped prefix plus the reader input reconstruct
the original file text. -/
theorem C4_skip_three_lines (text : String)
    (h : 3 < (pySplitlinesKeep text).length) :
    connectionsCsvText text = String.join ((pySplitlinesKeep text).drop 3) ∧
    String.join ((pySplitlinesKeep text).take 3) ++ connectionsCsvText text = text := by
  constructor
  · simp [connectionsCsvText, h]
  · have h1 : connectionsCsvText text = String.join ((pySplitlinesKeep text).drop 3) := by
      simp [connectionsCsvText, h]
    rw [h1]
    unfold pySplitlinesKeep
    rw [← List.map_take, ← List.map_drop, string_join_map_mk, string_join_map_mk]
    have hmk : ∀ a b : List Char, String.mk a ++ String.mk b = String.mk (a ++ b) :=
      fun a b => rfl
    rw [hmk, ← List.flatten_append, List.take_append_drop,
      splitlinesKeepC_flatten]
    simp

/-- C4 witness: a five-line file; the reader input is lines 4 and 5 and
the first three lines are exactly what was skipped. -/
theorem C4_skip_three_lines_witness :
    3 < (pySplitlinesKeep "Notes:\n\nignore\nFirst Name,Last Name\nAda,Lovelace\n").length ∧
    connectionsCsvText "Notes:\n\nignore\nFirst Name,Last Name\nAda,Lovelace\n" =
      String.join ((pySplitlinesKeep "Notes:\n\nignore\nFirst Name,Last Name\nAda,Lovelace\n").drop 3) ∧
    String.join ((pySplitlinesKeep "Notes:\n\nignore\nFirst Name,Last Name\nAda,Lovelace\n").take 3) ++
        connectionsCsvText "Notes:\n\nignore\nFirst Name,Last Name\nAda,Lovelace\n" =
      "Notes:\n\nignore\nFirst Name,Last Name\nAda,Lovelace\n" :=
  ⟨by decide,
   C4_skip_three_lines "Notes:\n\nignore\nFirst Name,Last Name\nAda,Lovelace\n" (by decide)⟩

/-- Role-clustering keyword list FOUNDER_KEYWORDS from analyze.py. -/
def FOUNDER_KEYWORDS : List String :=
  ["founder", "co-founder", "cofounder", "ceo", "chief executive",
   "owner", "principal", "managing partner", "entrepreneur"]

/-- Role-clustering keyword list TECH_KEYWORDS from analyze.py. -/
def TECH_KEYWORDS : List String :=
  ["engineer", "developer", "software", "swe", "devops", "sre",
   "architect", "cto", "tech lead", "data scientist", "ml ", "machine learning",
   "full stack", "fullstack", "frontend", "backend", "platform",
   "infrastructure", "security engineer"]

/-- Role-clustering keyword list SALES_KEYWORDS from analyze.py. -/
def SALES_KEYWORDS : List String :=
  ["sales", "account executive", "business development", "bdr", "sdr",
   "revenue", "partnerships", "ae ", "account manager"]

/-- Role-clustering keyword list MARKETING_KEYWORDS from analyze.py. -/
def MARKETING_KEYWORDS : List String :=
  ["marketing", "brand", "content", "growth", "demand gen", "cmo",
   "communications", "social media", "digital marketing", "email marketing",
   "lifecycle", "crm", "retention", "acquisition", "performance marketing",
   "product marketing", "pmm"]

/-- Role-clustering keyword list PRODUCT_KEYWORDS from analyze.py. -/
def PRODUCT_KEYWORDS : List String :=
  ["product manager", "product lead", "product director", "vp product",
   "head of product", "cpo", "product design", "ux", "ui/ux"]

/-- Role-clustering keyword list DESIGN_KEYWORDS from analyze.py. -/
def DESIGN_KEYWORDS : List String :=
  ["designer", "design lead", "creative director", "art director",
   "visual design", "graphic design", "ux design", "ui design"]

/-- Role-clustering keyword list RECRUITING_KEYWORDS from analyze.py. -/
def RECRUITING_KEYWORDS : List String :=
  ["recruiter", "talent", "recruiting", "people ops", "hr ",
   "human resources", "head of people", "vp people"]

/-- Role-clustering keyword list CONSULTING_KEYWORDS from analyze.py. -/
def CONSULTING_KEYWORDS : List String :=
  ["consultant", "advisor", "advisory", "freelance", "independent",
   "strategist", "strategy"]

/-- Role-clustering keyword list EXECUTIVE_KEYWORDS from analyze.py. -/
def EXECUTIVE_KEYWORDS : List String :=
  ["vp ", "vice president", "svp", "evp", "director", "head of",
   "chief", "c-suite", "coo", "cfo", "cro", "cmo"]

/-- Role-clustering keyword list OPERATIONS_KEYWORDS from analyze.py. -/
def OPERATIONS_KEYWORDS : List String :=
  ["operations", "ops ", "supply chain", "logistics", "fulfillment",
   "procurement", "project manager", "program manager"]

/-- The ordered cluster table _CLUSTER_DEFINITIONS from analyze.py. -/
def CLUSTER_DEFINITIONS : List (String × List String) :=
  [("Founders & CEOs", FOUNDER_KEYWORDS),
   ("Tech & Engineering", TECH_KEYWORDS),
   ("Sales & BD", SALES_KEYWORDS),
   ("Marketing & Growth", MARKETING_KEYWORDS),
   ("Product", PRODUCT_KEYWORDS),
   ("Design & Creative", DESIGN_KEYWORDS),
   ("Recruiting & HR", RECRUITING_KEYWORDS),
   ("Consulting & Strategy", CONSULTING_KEYWORDS),
   ("Executive Leadership", EXECUTIVE_KEYWORDS),
   ("Operations", OPERATIONS_KEYWORDS)]

/-- First cluster (in definition order) whose keyword list has a keyword
contained in the lowercased position, the break-on-first-match loop of
cluster_network. -/
def firstMatchingCluster (position : String) : Option String :=
  (CLUSTER_DEFINITIONS.find? (fun cd =>
    cd.2.any (fun kw => pyContains kw (pyLower position)))).map (fun cd => cd.1)

/-- The cluster name a connection is assigned by cluster_network: the
first keyword match, or the unmatched bucket. -/
def assignedClusterName (conn : Connection) : String :=
  (firstMatchingCluster conn.position).getD "Other / Unclassified"

/-- Appending a connection to its cluster inside the defaultdict: the
bucket list is insertion-ordered, a new key goes to the end. -/
def addToBucket (buckets : List (String × List Connection)) (name : String)
    (conn : Connection) : List (String × List Connection) :=
  match buckets with
  | [] => [(name, [conn])]
  | hd :: rest =>
    if hd.1 == name then (hd.1, hd.2 ++ [conn]) :: rest
    else hd :: addToBucket rest name conn

/-- One step of the clustering loop in cluster_network. -/
def clusterStep (acc : List (String × List Connection) × List Connection)
    (conn : Connection) : List (String × List Connection) × List Connection :=
  match firstMatchingCluster conn.position with
  | some nm => (addToBucket acc.1 nm conn, acc.2)
  | none => (acc.1, acc.2 ++ [conn])

/-- One result entry of cluster_network. -/
structure Cluster where
  name : String
  count : Nat
  top_companies : List String
  connections : List Connection
deriving DecidableEq, Repr

/-- collections.Counter over a list of strings: keys in first-occurrence
order with their multiplicities. -/
def counterItems (l : List String) : List (String × Nat) :=
  l.foldl (fun acc s =>
    if acc.any (fun p => p.1 == s) then
      acc.map (fun p => if p.1 == s then (p.1, p.2 + 1) else p)
    else acc ++ [(s, 1)]) []

/-- Counter.most_common(n): stable sort by descending count, first n. -/
def mostCommon (n : Nat) (items : List (String × Nat)) : List (String × Nat) :=
  (items.insertionSort (fun a b => b.2 ≤ a.2)).take n

/-- The top-companies computation inside cluster_network. -/
def topCompanies (conns : List Connection) : List String :=
  (mostCommon 10 (counterItems
    ((conns.filter (fun c => c.company ≠ "")).map (fun c => c.company)))).map
    (fun p => p.1)

/-- Embedding of analyze.cluster_network: bucket by first keyword match,
collect unmatched connections under "Other / Unclassified", then sort
clusters by descending size (Python sorted is stable, as is
insertionSort) and build the result records. -/
def cluster_network (conns : List Connection) : List Cluster :=
  let folded := conns.foldl clusterStep ([], [])
  let buckets :=
    if folded.2 = [] then folded.1
    else folded.1 ++ [("Other / Unclassified", folded.2)]
  let sortedB := buckets.insertionSort (fun a b => b.2.length ≤ a.2.length)
  sortedB.map (fun nc =>
    { name := nc.1, count := nc.2.length,
      top_companies := topCompanies nc.2, connections := nc.2 })

/-- All connections stored in a bucket list. -/
def bucketConns (bs : List (String × List Connection)) : List Connection :=
  (bs.map (fun p => p.2)).flatten

/-- Adding a connection to its bucket adds exactly that connection to the
stored multiset. -/
theorem addToBucket_perm (bs : List (String × List Connection)) (n : String)
    (c : Connection) :
    (bucketConns (addToBucket bs n c)).Perm (bucketConns bs ++ [c]) := by
  induction bs with
  | nil => simp [addToBucket, bucketConns]
  | cons hd rest ih =>
    by_cases h : hd.1 == n
    · simp only [addToBucket, h, if_true, bucketConns, List.map_cons,
        List.flatten_cons]
      rw [List.append_assoc, List.append_assoc]
      exact List.Perm.append_left hd.2 List.perm_append_comm
    · simp only [addToBucket, h, if_false, bucketConns, List.map_cons,
        List.flatten_cons]
      rw [List.append_assoc]
      exact List.Perm.append_left hd.2 ih

/-- The clustering fold is a partition: buckets plus unmatched hold
exactly the accumulated input. -/
theorem foldl_clusterStep_perm (conns : List Connection)
    (acc : List (String × List Connection) × List Connection) :
    (bucketConns (conns.foldl clusterStep acc).1 ++
        (conns.foldl clusterStep acc).2).Perm
      ((bucketConns acc.1 ++ acc.2) ++ conns) := by
  induction conns generalizing acc with
  | nil => simp
  | cons c rest ih =>
    have hstep : (bucketConns (clusterStep acc c).1 ++ (clusterStep acc c).2).Perm
        ((bucketConns acc.1 ++ acc.2) ++ [c]) := by
      unfold clusterStep
      cases hm : firstMatchingCluster c.position with
      | some n =>
        simp only
        refine (List.Perm.append_right acc.2 (addToBucket_perm acc.1 n c)).trans ?_
        rw [List.append_assoc, List.append_assoc]
        exact List.Perm.append_left (bucketConns acc.1) List.perm_append_comm
      | none =>
        simp only
        rw [List.append_assoc]
    have hh := (ih (clusterStep acc c)).trans
      (List.Perm.append_right rest hstep)
    rw [List.foldl_cons]
    refine hh.trans ?_
    rw [List.append_assoc]
    simp

/-- C10: cluster_network partitions its input: the connections stored in
the returned clusters are a permutation of the input (each input record
lands in exactly one cluster, the unmatched bucket included), the count
fields sum to the input length, and the clusters are returned in
non-increasing order of count. -/
theorem C10_cluster_network_partition (conns : List Connection) :
    (((cluster_network conns).map Cluster.connections).flatten).Perm conns ∧
    ((cluster_network conns).map Cluster.count).sum = conns.length ∧
    List.Pairwise (fun a b : Nat => b ≤ a)
      ((cluster_network conns).map Cluster.count) := by
  have hperm0 := foldl_clusterStep_perm conns ([], [])
  simp only [bucketConns, List.map_nil, List.flatten_nil, List.nil_append] at hperm0
  set F := conns.foldl clusterStep ([], []) with hF
  set bks := if F.2 = [] then F.1
    else F.1 ++ [("Other / Unclassified", F.2)] with hbks
  set sb := bks.insertionSort (fun a b => b.2.length ≤ a.2.length) with hsb
  have hcn : cluster_network conns = sb.map (fun nc =>
      { name := nc.1, count := nc.2.length,
        top_companies := topCompanies nc.2, connections := nc.2 }) := rfl
  have hBperm : (bucketConns bks).Perm conns := by
    by_cases h2 : F.2 = []
    · rw [hbks, if_pos h2]
      have : bucketConns F.1 ++ F.2 = bucketConns F.1 := by rw [h2, List.append_nil]
      rw [← this]
      exact hperm0
    · rw [hbks, if_neg h2]
      have : bucketConns (F.1 ++ [("Other / Unclassified", F.2)]) =
          bucketConns F.1 ++ F.2 := by
        simp [bucketConns]
      rw [this]
      exact hperm0
  have hsbPerm : sb.Perm bks := List.perm_insertionSort _ _
  have hconnmap : (cluster_network conns).map Cluster.connections =
      sb.map (fun nc => nc.2) := by
    rw [hcn, List.map_map]
    rfl
  have hcountmap : (cluster_network conns).map Cluster.count =
      sb.map (fun nc => nc.2.length) := by
    rw [hcn, List.map_map]
    rfl
  have hflatperm : (((cluster_network conns).map Cluster.connections).flatten).Perm conns := by
    rw [hconnmap]
    exact (List.Perm.flatten
      (List.Perm.map (fun nc : String × List Connection => nc.2) hsbPerm)).trans hBperm
  refine ⟨hflatperm, ?_, ?_⟩
  · rw [hcountmap]
    have h1 : sb.map (fun nc : String × List Connection => nc.2.length) =
        (sb.map (fun nc => nc.2)).map List.length := by
      rw [List.map_map]
      rfl
    rw [h1, ← List.length_flatten]
    rw [hconnmap] at hflatperm
    exact hflatperm.length_eq
  · rw [hcountmap]
    have htot : IsTotal (String × List Connection)
        (fun a b => b.2.length ≤ a.2.length) := ⟨fun a b => Nat.le_total _ _⟩
    have htrans : IsTrans (String × List Connection)
        (fun a b => b.2.length ≤ a.2.length) :=
      ⟨fun a b c hab hbc => Nat.le_trans hbc hab⟩
    have hs := @List.sorted_insertionSort (String × List Connection)
      (fun a b => b.2.length ≤ a.2.length) (fun a b => Nat.decLe _ _)
      htot htrans bks
    exact List.Pairwise.map (fun nc : String × List Connection => nc.2.length)
      (fun a b hab => hab) hs

/-- Lookup of a bucket by cluster name. -/
def bucketGet (bs : List (String × List Connection)) (n : String) :
    Option (List Connection) :=
  (bs.find? (fun p => p.1 == n)).map (fun p => p.2)

/-- addToBucket appends the connection to the looked-up bucket. -/
theorem bucketGet_addToBucket_self (bs : List (String × List Connection))
    (n : String) (c : Connection) :
    bucketGet (addToBucket bs n c) n = some ((bucketGet bs n).getD [] ++ [c]) := by
  induction bs with
  | nil => simp [addToBucket, bucketGet]
  | cons hd rest ih =>
    by_cases h : (hd.1 == n) = true
    · rw [addToBucket, if_pos h]
      have e1 : List.find? (fun p : String × List Connection => p.1 == n)
          ((hd.1, hd.2 ++ [c]) :: rest) = some (hd.1, hd.2 ++ [c]) :=
        List.find?_cons_of_pos _ (by simpa using h)
      have e2 : List.find? (fun p : String × List Connection => p.1 == n)
          (hd :: rest) = some hd := List.find?_cons_of_pos _ h
      simp [bucketGet, e1, e2]
    · have hb : (hd.1 == n) = false := by simpa using h
      rw [addToBucket, if_neg h]
      have e1 : List.find? (fun p : String × List Connection => p.1 == n)
          (hd :: addToBucket rest n c) =
          List.find? (fun p => p.1 == n) (addToBucket rest n c) :=
        List.find?_cons_of_neg _ h
      have e2 : List.find? (fun p : String × List Connection => p.1 == n)
          (hd :: rest) = List.find? (fun p => p.1 == n) rest :=
        List.find?_cons_of_neg _ h
      rw [bucketGet, e1, bucketGet, e2]
      exact ih

/-- addToBucket leaves other buckets unchanged. -/
theorem bucketGet_addToBucket_other (bs : List (String × List Connection))
    (n m : String) (c : Connection) (h : m ≠ n) :
    bucketGet (addToBucket bs n c) m = bucketGet bs m := by
  induction bs with
  | nil =>
    have hmn : (n == m) = false := by
      simp [Ne.symm h]
    simp [addToBucket, bucketGet, hmn]
  | cons hd rest ih =>
    by_cases hh : hd.1 == n
    · have h1 : hd.1 = n := by simpa using hh
      have h2 : (n == m) = false := by simp [Ne.symm h]
      simp [addToBucket, hh, bucketGet, List.find?_cons, h1, h2]
    · simp only [addToBucket, hh, if_false]
      simp only [bucketGet, List.find?_cons] at ih ⊢
      by_cases hm : hd.1 == m
      · simp [hm]
      · simpa [hm] using ih

/-- Membership in a bucket is preserved by the rest of the fold. -/
theorem foldl_clusterStep_mono (conns : List Connection)
    (acc : List (String × List Connection) × List Connection)
    (n : String) (conn : Connection)
    (h : conn ∈ (bucketGet acc.1 n).getD []) :
    conn ∈ (bucketGet (conns.foldl clusterStep acc).1 n).getD [] := by
  induction conns generalizing acc with
  | nil => simpa using h
  | cons c rest ih =>
    rw [List.foldl_cons]
    refine ih (clusterStep acc c) ?_
    unfold clusterStep
    cases hm : firstMatchingCluster c.position with
    | some m =>
      simp only
      by_cases hnm : n = m
      · subst hnm
        rw [bucketGet_addToBucket_self]
        simp only [Option.getD_some]
        exact List.mem_append_left _ h
      · rw [bucketGet_addToBucket_other _ _ _ _ hnm]
        exact h
    | none =>
      simpa using h

/-- Membership in the unmatched list is preserved by the rest of the
fold. -/
theorem foldl_clusterStep_unmatched_mono (conns : List Connection)
    (acc : List (String × List Connection) × List Connection)
    (conn : Connection) (h : conn ∈ acc.2) :
    conn ∈ (conns.foldl clusterStep acc).2 := by
  induction conns generalizing acc with
  | nil => simpa using h
  | cons c rest ih =>
    rw [List.foldl_cons]
    refine ih (clusterStep acc c) ?_
    unfold clusterStep
    cases hm : firstMatchingCluster c.position with
    | some m => simpa using h
    | none =>
      simp only
      exact List.mem_append_left _ h

/-- Every processed connection lands in the bucket of its first matching
cluster, or in the unmatched list. -/
theorem foldl_clusterStep_mem (conns : List Connection)
    (acc : List (String × List Connection) × List Connection)
    (conn : Connection) (h : conn ∈ conns) :
    (∀ n, firstMatchingCluster conn.position = some n →
      conn ∈ (bucketGet (conns.foldl clusterStep acc).1 n).getD []) ∧
    (firstMatchingCluster conn.position = none →
      conn ∈ (conns.foldl clusterStep acc).2) := by
  induction conns generalizing acc with
  | nil => cases h
  | cons c rest ih =>
    rcases List.mem_cons.mp h with hc | hc
    · subst hc
      constructor
      · intro n hn
        rw [List.foldl_cons]
        refine foldl_clusterStep_mono rest (clusterStep acc conn) n conn ?_
        unfold clusterStep
        rw [hn]
        simp only
        rw [bucketGet_addToBucket_self]
        simp only [Option.getD_some]
        exact List.mem_append_right _ (List.mem_singleton.mpr rfl)
      · intro hn
        rw [List.foldl_cons]
        refine foldl_clusterStep_unmatched_mono rest (clusterStep acc conn) conn ?_
        unfold clusterStep
        rw [hn]
        simp
    · rw [List.foldl_cons]
      exact ih (clusterStep acc c) hc

/-- A successful bucket lookup is a member of the bucket list. -/
theorem bucketGet_mem (bs : List (String × List Connection)) (n : String)
    (cs : List Connection) (h : bucketGet bs n = some cs) : (n, cs) ∈ bs := by
  unfold bucketGet at h
  cases hf : bs.find? (fun p => p.1 == n) with
  | none => rw [hf] at h; simp at h
  | some p =>
    rw [hf] at h
    have h1 : p.1 = n := by simpa using List.find?_some hf
    have h2 : p ∈ bs := List.mem_of_find?_eq_some hf
    have h3 : (n, cs) = p := by
      cases p
      simp_all
    rwa [h3]

/-- C5: cluster_network assigns every record to the first cluster (in
definition order) with a keyword contained in the lowercased position,
and records matching no cluster land in the "Other / Unclassified"
bucket; the assigned cluster appears in the output holding the record. -/
theorem C5_first_match_assignment (conns : List Connection) (conn : Connection)
    (h : conn ∈ conns) :
    ∃ cl ∈ cluster_network conns,
      cl.name = assignedClusterName conn ∧ conn ∈ cl.connections := by
  have hmem := foldl_clusterStep_mem conns ([], []) conn h
  set F := conns.foldl clusterStep ([], []) with hF
  set bks := if F.2 = [] then F.1
    else F.1 ++ [("Other / Unclassified", F.2)] with hbks
  set sb := bks.insertionSort (fun a b => b.2.length ≤ a.2.length) with hsb
  have hcn : cluster_network conns = sb.map (fun nc =>
      { name := nc.1, count := nc.2.length,
        top_companies := topCompanies nc.2, connections := nc.2 }) := rfl
  have hinbks : ∃ nc ∈ bks, nc.1 = assignedClusterName conn ∧ conn ∈ nc.2 := by
    cases hfm : firstMatchingCluster conn.position with
    | some n =>
      have h1 := hmem.1 n hfm
      cases hbg : bucketGet F.1 n with
      | none => rw [hbg] at h1; simp at h1
      | some cs =>
        rw [hbg] at h1
        simp only [Option.getD_some] at h1
        have h2 : (n, cs) ∈ F.1 := bucketGet_mem _ _ _ hbg
        refine ⟨(n, cs), ?_, ?_, h1⟩
        · by_cases h3 : F.2 = []
          · rw [hbks, if_pos h3]
            exact h2
          · rw [hbks, if_neg h3]
            exact List.mem_append_left _ h2
        · simp [assignedClusterName, hfm]
    | none =>
      have h1 := hmem.2 hfm
      have hne : F.2 ≠ [] := by
        intro he
        rw [he] at h1
        cases h1
      refine ⟨("Other / Unclassified", F.2), ?_, ?_, h1⟩
      · rw [hbks, if_neg hne]
        exact List.mem_append_right _ (List.mem_singleton.mpr rfl)
      · simp [assignedClusterName, hfm]
  obtain ⟨nc, hncmem, hname, hconn⟩ := hinbks
  have hsbmem : nc ∈ sb := ((List.perm_insertionSort _ bks).mem_iff).mpr hncmem
  refine ⟨Cluster.mk nc.1 nc.2.length (topCompanies nc.2) nc.2, ?_, hname, hconn⟩
  rw [hcn]
  exact List.mem_map_of_mem _ hsbmem

/-- C5 witness: a software engineer record lands in the Tech &
Engineering cluster of the one-record network. -/
theorem C5_first_match_assignment_witness :
    ∃ cl ∈ cluster_network [⟨"A", "B", "Acme", "Software Engineer", none, ""⟩],
      cl.name = assignedClusterName ⟨"A", "B", "Acme", "Software Engineer", none, ""⟩ ∧
      (⟨"A", "B", "Acme", "Software Engineer", none, ""⟩ : Connection) ∈ cl.connections :=
  C5_first_match_assignment _ _ (List.mem_singleton.mpr rfl)

/-- Lookup in the sender-to-latest-date dict of score_messages. -/
def lastMsgGet (m : List (String × PyDateTime)) (k : String) : Option PyDateTime :=
  match m with
  | [] => none
  | hd :: rest => if hd.1 == k then some hd.2 else lastMsgGet rest k

/-- Dict assignment name_to_last_msg[sender] = date (overwrite in place,
append at the end when the key is new). -/
def lastMsgSet (m : List (String × PyDateTime)) (k : String) (v : PyDateTime) :
    List (String × PyDateTime) :=
  if m.any (fun p => p.1 == k) then
    m.map (fun p => if p.1 == k then (k, v) else p)
  else m ++ [(k, v)]

/-- One iteration of the name_to_last_msg loop in score_messages:
messages without sender (after stripping) or without date are skipped,
otherwise the latest date per sender is kept. -/
def lastMsgStep (acc : List (String × PyDateTime)) (msg : Message) :
    List (String × PyDateTime) :=
  let sender := pyLower (pyStrip msg.sender)
  match msg.date with
  | none => acc
  | some d =>
    if sender == "" then acc
    else
      match lastMsgGet acc sender with
      | none => lastMsgSet acc sender d
      | some cur => if dtLt cur d then lastMsgSet acc sender d else acc

/-- The sender-to-latest-date map built by score_messages. -/
def buildLastMsgMap (msgs : List Message) : List (String × PyDateTime) :=
  msgs.foldl lastMsgStep []

/-- The tier threshold table _TIER_THRESHOLDS from analyze.py. -/
def TIER_THRESHOLDS : List (String × Int) :=
  [("Active", 30), ("Some Contact", 90), ("Going Stale", 180), ("Dormant", 365)]

/-- An enriched connection as returned by score_messages. -/
structure Scored where
  conn : Connection
  tier : String
  last_message_date : Option PyDateTime
deriving DecidableEq, Repr

/-- Embedding of analyze.score_messages; now stands for datetime.now(). -/
def score_messages (now : PyDateTime) (conns : List Connection)
    (msgs : List Message) : List Scored :=
  let lastMap := buildLastMsgMap msgs
  conns.map (fun conn =>
    let full := pyLower (pyStrip (conn.first_name ++ " " ++ conn.last_name))
    match lastMsgGet lastMap full with
    | none => ⟨conn, "Never Messaged", none⟩
    | some last =>
      let daysAgo := timedeltaDays now last
      ⟨conn,
       ((TIER_THRESHOLDS.find? (fun t => decide (daysAgo ≤ t.2))).map
         (fun t => t.1)).getD "Deep Sleep",
       some last⟩)

/-- Latest-date accumulator, as in the dict-update comparison. -/
def maxDateStep (acc : Option PyDateTime) (d : PyDateTime) : Option PyDateTime :=
  match acc with
  | none => some d
  | some c => if dtLt c d then some d else some c

/-- Claim-side join of C6 as literally stated: the most recent date
among messages whose (stripped, lowercased) sender equals the
connection's (stripped, lowercased) full name. -/
def mostRecentMatching (msgs : List Message) (nameLower : String) :
    Option PyDateTime :=
  (msgs.filterMap (fun m =>
    if pyLower (pyStrip m.sender) = nameLower then m.date else none)).foldl
    maxDateStep none

/-- Claim-side join amended: messages whose sender is empty after
stripping are excluded from the join. -/
def mostRecentMatchingA (msgs : List Message) (nameLower : String) :
    Option PyDateTime :=
  (msgs.filterMap (fun m =>
    let s := pyLower (pyStrip m.sender)
    if s ≠ "" ∧ s = nameLower then m.date else none)).foldl
    maxDateStep none

/-- The tier buckets of C6 as a function of days since last contact. -/
def claimTier (daysAgo : Int) : String :=
  if daysAgo ≤ 30 then "Active"
  else if daysAgo ≤ 90 then "Some Contact"
  else if daysAgo ≤ 180 then "Going Stale"
  else if daysAgo ≤ 365 then "Dormant"
  else "Deep Sleep"

/-- The tier C6 assigns to a connection, as literally stated. -/
def claimTierOf (now : PyDateTime) (msgs : List Message) (conn : Connection) :
    String :=
  match mostRecentMatching msgs
      (pyLower (pyStrip (conn.first_name ++ " " ++ conn.last_name))) with
  | none => "Never Messaged"
  | some last => claimTier (timedeltaDays now last)

/-- The tier of the amended claim: empty senders never join. -/
def claimTierOfA (now : PyDateTime) (msgs : List Message) (conn : Connection) :
    String :=
  match mostRecentMatchingA msgs
      (pyLower (pyStrip (conn.first_name ++ " " ++ conn.last_name))) with
  | none => "Never Messaged"
  | some last => claimTier (timedeltaDays now last)

/-- C6 counterexample: a connection with empty first and last name and a
message with empty sender and a current date.  The claim as stated joins
them (equal full-name and sender strings) and demands tier "Active", but
score_messages skips empty senders and returns "Never Messaged". -/
theorem C6_counterexample :
    (score_messages ⟨2024, 1, 12, 0, 0, 0⟩
        [⟨"", "", "", "", none, ""⟩]
        [⟨none, "", some ⟨2024, 1, 12, 0, 0, 0⟩, "", ""⟩]).map Scored.tier =
      ["Never Messaged"] ∧
    claimTierOf ⟨2024, 1, 12, 0, 0, 0⟩
        [⟨none, "", some ⟨2024, 1, 12, 0, 0, 0⟩, "", ""⟩]
        ⟨"", "", "", "", none, ""⟩ = "Active" ∧
    (score_messages ⟨2024, 1, 12, 0, 0, 0⟩
        [⟨"", "", "", "", none, ""⟩]
        [⟨none, "", some ⟨2024, 1, 12, 0, 0, 0⟩, "", ""⟩]).map Scored.tier ≠
      [claimTierOf ⟨2024, 1, 12, 0, 0, 0⟩
        [⟨none, "", some ⟨2024, 1, 12, 0, 0, 0⟩, "", ""⟩]
        ⟨"", "", "", "", none, ""⟩] := by
  refine ⟨by decide, by decide, by decide⟩

/-- In-place dict overwrite: a present key looks up the new value. -/
theorem lastMsgGet_map_self (m : List (String × PyDateTime)) (k : String)
    (v : PyDateTime) (ha : m.any (fun p => p.1 == k)) :
    lastMsgGet (m.map (fun p => if p.1 == k then (k, v) else p)) k = some v := by
  induction m with
  | nil => simp at ha
  | cons hd rest ih =>
    by_cases h : (hd.1 == k) = true
    · simp [lastMsgGet, h]
    · have hb : (hd.1 == k) = false := by simpa using h
      simp only [List.any_cons, hb, Bool.false_or] at ha
      simp only [List.map_cons, hb, Bool.false_eq_true, if_false]
      rw [lastMsgGet]
      simp only [hb, Bool.false_eq_true, if_false]
      simpa using ih ha

/-- In-place dict overwrite: other keys are unaffected. -/
theorem lastMsgGet_map_other (m : List (String × PyDateTime)) (k k2 : String)
    (v : PyDateTime) (h : k2 ≠ k) :
    lastMsgGet (m.map (fun p => if p.1 == k then (k, v) else p)) k2 =
      lastMsgGet m k2 := by
  induction m with
  | nil => rfl
  | cons hd rest ih =>
    by_cases hh : (hd.1 == k) = true
    · have h1 : hd.1 = k := by simpa using hh
      have hk2 : (k == k2) = false := by simp [Ne.symm h]
      have hd2 : (hd.1 == k2) = false := by simp [h1, Ne.symm h]
      simp only [List.map_cons, hh, if_true]
      rw [lastMsgGet, lastMsgGet]
      simp only [hk2, hd2, Bool.false_eq_true, if_false]
      simpa using ih
    · have hb : (hd.1 == k) = false := by simpa using hh
      by_cases hd2 : (hd.1 == k2) = true
      · simp [lastMsgGet, hb, hd2]
      · have hd2b : (hd.1 == k2) = false := by simpa using hd2
        simp only [List.map_cons, hb, Bool.false_eq_true, if_false]
        rw [lastMsgGet, lastMsgGet]
        simp only [hd2b, Bool.false_eq_true, if_false]
        simpa using ih

/-- Appending a fresh key: its own lookup finds the new value when the
key was absent. -/
theorem lastMsgGet_append_self (m : List (String × PyDateTime)) (k : String)
    (v : PyDateTime) (ha : ¬(m.any (fun p => p.1 == k) = true)) :
    lastMsgGet (m ++ [(k, v)]) k = some v := by
  induction m with
  | nil => simp [lastMsgGet]
  | cons hd rest ih =>
    simp only [List.any_cons, Bool.or_eq_true, not_or] at ha
    have hb : (hd.1 == k) = false := by simpa using ha.1
    simp only [List.cons_append]
    simp [lastMsgGet, hb]
    exact ih (by simpa using ha.2)

/-- Appending a fresh key: other lookups are unaffected. -/
theorem lastMsgGet_append_other (m : List (String × PyDateTime)) (k k2 : String)
    (v : PyDateTime) (h : k2 ≠ k) :
    lastMsgGet (m ++ [(k, v)]) k2 = lastMsgGet m k2 := by
  induction m with
  | nil =>
    have hk2 : (k == k2) = false := by simp [Ne.symm h]
    simp [lastMsgGet, hk2]
  | cons hd rest ih =>
    by_cases hd2 : (hd.1 == k2) = true
    · simp [lastMsgGet, hd2]
    · have hd2b : (hd.1 == k2) = false := by simpa using hd2
      simp [lastMsgGet, hd2b, ih]

/-- Dict assignment: the assigned key looks up the new value. -/
theorem lastMsgGet_set_self (m : List (String × PyDateTime)) (k : String)
    (v : PyDateTime) : lastMsgGet (lastMsgSet m k v) k = some v := by
  unfold lastMsgSet
  by_cases ha : m.any (fun p => p.1 == k)
  · rw [if_pos ha]
    exact lastMsgGet_map_self m k v ha
  · rw [if_neg ha]
    exact lastMsgGet_append_self m k v ha

/-- Dict assignment: other keys are unaffected. -/
theorem lastMsgGet_set_other (m : List (String × PyDateTime)) (k k2 : String)
    (v : PyDateTime) (h : k2 ≠ k) :
    lastMsgGet (lastMsgSet m k v) k2 = lastMsgGet m k2 := by
  unfold lastMsgSet
  by_cases ha : m.any (fun p => p.1 == k)
  · rw [if_pos ha]
    exact lastMsgGet_map_other m k k2 v h
  · rw [if_neg ha]
    exact lastMsgGet_append_other m k k2 v h

/-- The date contributed by one message to the join at a given key:
dated messages whose stripped lowercased sender is non-empty and equal
to the key. -/
def msgJoinDate (k : String) (m : Message) : Option PyDateTime :=
  let s := pyLower (pyStrip m.sender)
  if s ≠ "" ∧ s = k then m.date else none

/-- The amended join equals the filterMap form over msgJoinDate. -/
theorem mostRecentMatchingA_eq (msgs : List Message) (k : String) :
    mostRecentMatchingA msgs k =
      (msgs.filterMap (msgJoinDate k)).foldl maxDateStep none := rfl

/-- The sender map built by score_messages computes, per key, the
running latest date over dated messages with that (non-empty) sender. -/
theorem buildLastMsg_get (msgs : List Message)
    (acc : List (String × PyDateTime)) (k : String) :
    lastMsgGet (msgs.foldl lastMsgStep acc) k =
      (msgs.filterMap (msgJoinDate k)).foldl maxDateStep (lastMsgGet acc k) := by
  induction msgs generalizing acc with
  | nil => rfl
  | cons m rest ih =>
    rw [List.foldl_cons, ih (lastMsgStep acc m)]
    cases hd : m.date with
    | none =>
      have hfm : msgJoinDate k m = none := by
        simp [msgJoinDate, hd]
      rw [List.filterMap_cons_none hfm]
      have hstep : lastMsgStep acc m = acc := by
        simp [lastMsgStep, hd]
      rw [hstep]
    | some d =>
      by_cases hs : pyLower (pyStrip m.sender) = ""
      · have hfm : msgJoinDate k m = none := by
          simp [msgJoinDate, hs]
        rw [List.filterMap_cons_none hfm]
        have hstep : lastMsgStep acc m = acc := by
          simp [lastMsgStep, hd, hs]
        rw [hstep]
      · by_cases hk : pyLower (pyStrip m.sender) = k
        · have hfm : msgJoinDate k m = some d := by
            rw [msgJoinDate]
            simp only [hd]
            rw [if_pos ⟨hs, hk⟩]
          rw [List.filterMap_cons_some hfm, List.foldl_cons]
          have hsender : (pyLower (pyStrip m.sender) == "") = false := by
            simpa using hs
          have hstep : lastMsgGet (lastMsgStep acc m) k =
              maxDateStep (lastMsgGet acc k) d := by
            rw [lastMsgStep]
            simp only [hd, hsender, Bool.false_eq_true, if_false]
            cases hacc : lastMsgGet acc (pyLower (pyStrip m.sender)) with
            | none =>
              simp only
              rw [hk] at hacc
              rw [hk, lastMsgGet_set_self, hacc]
              rfl
            | some cur =>
              simp only
              rw [hk] at hacc
              rw [hacc]
              by_cases hlt : dtLt cur d = true
              · rw [if_pos hlt, hk, lastMsgGet_set_self]
                simp [maxDateStep, hlt]
              · rw [if_neg hlt, hacc]
                simp [maxDateStep, hlt]
          rw [hstep]
        · have hfm : msgJoinDate k m = none := by
            rw [msgJoinDate]
            rw [if_neg (fun hc => hk hc.2)]
          rw [List.filterMap_cons_none hfm]
          have hsender : (pyLower (pyStrip m.sender) == "") = false := by
            simpa using hs
          have hstep : lastMsgGet (lastMsgStep acc m) k = lastMsgGet acc k := by
            rw [lastMsgStep]
            simp only [hd, hsender, Bool.false_eq_true, if_false]
            cases hacc : lastMsgGet acc (pyLower (pyStrip m.sender)) with
            | none =>
              simp only
              exact lastMsgGet_set_other _ _ _ _ (fun hc => hk hc.symm)
            | some cur =>
              simp only
              by_cases hlt : dtLt cur d = true
              · rw [if_pos hlt]
                exact lastMsgGet_set_other _ _ _ _ (fun hc => hk hc.symm)
              · rw [if_neg hlt]
          rw [hstep]

/-- The break-on-first-threshold scan equals the nested tier buckets of
the claim. -/
theorem tier_find_eq (d : Int) :
    ((TIER_THRESHOLDS.find? (fun t => decide (d ≤ t.2))).map
      (fun t => t.1)).getD "Deep Sleep" = claimTier d := by
  by_cases h1 : d ≤ 30 <;> by_cases h2 : d ≤ 90 <;> by_cases h3 : d ≤ 180 <;>
    by_cases h4 : d ≤ 365 <;>
    simp [TIER_THRESHOLDS, claimTier, List.find?_cons, h1, h2, h3, h4]

/-- C6 (amended): score_messages joins connections to messages by
case-insensitive (stripped) full-name equality with the message sender,
except that messages whose sender is empty after stripping (and
messages without a parsed date) are excluded from the join; the tier is
Active at up to 30 days since the most recent joined message, Some
Contact up to 90, Going Stale up to 180, Dormant up to 365, Deep Sleep
beyond, and Never Messaged when no message joins. -/
theorem C6_score_messages_tiers (now : PyDateTime) (conns : List Connection)
    (msgs : List Message) :
    (score_messages now conns msgs).map Scored.conn = conns ∧
    (score_messages now conns msgs).map Scored.tier =
      conns.map (claimTierOfA now msgs) ∧
    (score_messages now conns msgs).map Scored.last_message_date =
      conns.map (fun c => mostRecentMatchingA msgs
        (pyLower (pyStrip (c.first_name ++ " " ++ c.last_name)))) := by
  have hkey : ∀ key, lastMsgGet (buildLastMsgMap msgs) key =
      mostRecentMatchingA msgs key := by
    intro key
    rw [buildLastMsgMap, buildLastMsg_get, mostRecentMatchingA_eq]
    rfl
  have hsm : score_messages now conns msgs = conns.map (fun conn =>
      match lastMsgGet (buildLastMsgMap msgs)
          (pyLower (pyStrip (conn.first_name ++ " " ++ conn.last_name))) with
      | none => Scored.mk conn "Never Messaged" none
      | some last => Scored.mk conn
          (((TIER_THRESHOLDS.find?
              (fun t => decide (timedeltaDays now last ≤ t.2))).map
            (fun t => t.1)).getD "Deep Sleep")
          (some last)) := rfl
  have hpt : ∀ conn : Connection,
      (match lastMsgGet (buildLastMsgMap msgs)
          (pyLower (pyStrip (conn.first_name ++ " " ++ conn.last_name))) with
       | none => Scored.mk conn "Never Messaged" none
       | some last => Scored.mk conn
           (((TIER_THRESHOLDS.find?
               (fun t => decide (timedeltaDays now last ≤ t.2))).map
             (fun t => t.1)).getD "Deep Sleep")
           (some last)) =
      Scored.mk conn (claimTierOfA now msgs conn)
        (mostRecentMatchingA msgs
          (pyLower (pyStrip (conn.first_name ++ " " ++ conn.last_name)))) := by
    intro conn
    rw [hkey]
    cases hmr : mostRecentMatchingA msgs
        (pyLower (pyStrip (conn.first_name ++ " " ++ conn.last_name))) with
    | none =>
      simp [claimTierOfA, hmr]
    | some last =>
      simp [claimTierOfA, hmr, tier_find_eq]
  have hsm2 : score_messages now conns msgs = conns.map (fun conn =>
      Scored.mk conn (claimTierOfA now msgs conn)
        (mostRecentMatchingA msgs
          (pyLower (pyStrip (conn.first_name ++ " " ++ conn.last_name))))) :=
    hsm.trans (List.map_congr_left (fun a _ => hpt a))
  refine ⟨?_, ?_, ?_⟩
  · rw [hsm2, List.map_map]
    have hid : (Scored.conn ∘ fun conn : Connection =>
        Scored.mk conn (claimTierOfA now msgs conn)
          (mostRecentMatchingA msgs
            (pyLower (pyStrip (conn.first_name ++ " " ++ conn.last_name))))) =
        id := rfl
    rw [hid, List.map_id]
  · rw [hsm2, List.map_map]
    rfl
  · rw [hsm2, List.map_map]
    rfl

/-- Fallback pool FAKE_FIRST_NAMES_F from sanitize.py, source order. -/
def FAKE_FIRST_NAMES_F : List String :=
  ["Aria", "Nova", "Luna", "Sage", "Iris", "Wren", "Lyra",
   "Cleo", "Maren", "Thea", "Daphne", "Selene", "Freya", "Zara",
   "Nadia", "Vera", "Camille", "Elara", "Rowan", "Sable",
   "Astrid", "Briar", "Celeste", "Dahlia", "Esme", "Flora",
   "Gemma", "Haven", "Ivy", "Jade", "Kaia", "Lila", "Mila",
   "Nora", "Opal", "Petra", "Quinn", "Ren", "Stella", "Tessa",
   "Uma", "Viola", "Winter", "Xena", "Yara", "Zola"]

/-- Fallback pool FAKE_FIRST_NAMES_M from sanitize.py, source order. -/
def FAKE_FIRST_NAMES_M : List String :=
  ["Kai", "Leo", "Atlas", "Orion", "Felix", "Jasper", "Ezra",
   "Milo", "Silas", "Ronan", "Axel", "Dante", "Ellis", "Forrest",
   "Griffin", "Hugo", "Ivan", "Jude", "Knox", "Leander",
   "Magnus", "Nash", "Oscar", "Pax", "Remy", "Sterling", "Tobias",
   "Viggo", "Wells", "Xander", "York", "Zane", "Arlo", "Beck",
   "Cade", "Drake", "Emmett", "Flynn", "Grant", "Heath",
   "Idris", "Jett", "Kieran", "Lachlan", "Marco", "Nico"]

/-- Fallback pool FAKE_LAST_NAMES from sanitize.py, source order. -/
def FAKE_LAST_NAMES : List String :=
  ["Ashford", "Blackwell", "Calloway", "Devereaux", "Eastwood",
   "Fairchild", "Gallagher", "Hartwell", "Irvine", "Jameson",
   "Keating", "Lancaster", "Mercer", "Northwood", "Oconnell",
   "Prescott", "Quinlan", "Redmond", "Sinclair", "Thorne",
   "Underwood", "Voss", "Whitfield", "Ximenez", "Yardley", "Zhao",
   "Aldridge", "Brennan", "Carver", "Drake", "Everett", "Frost",
   "Gray", "Holmes", "Ingram", "Jensen", "Klein", "Lockwood",
   "Monroe", "Nolan", "Palmer", "Reed", "Stone", "Turner",
   "Vaughn", "Walsh"]

/-- FAKE_FIRST_NAMES_F after rng.shuffle under random.Random(42), the
first of the three seeded shuffles in build_name_map.  CPython's
Mersenne-Twister shuffle is deterministic, so the resulting permutation
is a fixed list, transcribed here and proven to be a permutation of the
source pool below. -/
def SHUFFLED_F : List String :=
  ["Rowan", "Briar", "Ivy", "Daphne", "Dahlia", "Thea", "Jade", "Nora",
   "Freya", "Sage", "Ren", "Iris", "Viola", "Flora", "Selene", "Mila",
   "Petra", "Tessa", "Zola", "Kaia", "Lila", "Gemma", "Esme", "Astrid",
   "Celeste", "Stella", "Winter", "Aria", "Sable", "Camille", "Yara",
   "Zara", "Quinn", "Xena", "Luna", "Haven", "Wren", "Opal", "Lyra",
   "Maren", "Nadia", "Vera", "Elara", "Nova", "Cleo", "Uma"]

/-- FAKE_FIRST_NAMES_M after the second seeded shuffle. -/
def SHUFFLED_M : List String :=
  ["Kai", "Forrest", "Zane", "Leo", "Lachlan", "Oscar", "Flynn", "Jude",
   "Wells", "Sterling", "Tobias", "Ivan", "Hugo", "Axel", "Ronan",
   "York", "Jett", "Ezra", "Leander", "Nash", "Idris", "Dante",
   "Magnus", "Arlo", "Silas", "Heath", "Orion", "Marco", "Kieran",
   "Viggo", "Beck", "Grant", "Griffin", "Nico", "Felix", "Ellis",
   "Emmett", "Pax", "Knox", "Drake", "Jasper", "Remy", "Milo", "Cade",
   "Xander", "Atlas"]

/-- FAKE_LAST_NAMES after the third seeded shuffle. -/
def SHUFFLED_L : List String :=
  ["Voss", "Holmes", "Ingram", "Fairchild", "Quinlan", "Yardley",
   "Walsh", "Lockwood", "Gallagher", "Keating", "Turner", "Vaughn",
   "Ashford", "Thorne", "Blackwell", "Prescott", "Gray", "Carver",
   "Lancaster", "Mercer", "Whitfield", "Jensen", "Sinclair", "Brennan",
   "Everett", "Aldridge", "Palmer", "Ximenez", "Hartwell", "Nolan",
   "Irvine", "Jameson", "Drake", "Reed", "Frost", "Monroe", "Stone",
   "Klein", "Northwood", "Eastwood", "Redmond", "Zhao", "Underwood",
   "Calloway", "Oconnell", "Devereaux"]

/-- The transcribed shuffles really are permutations of the pools. -/
theorem shuffled_pools_perm :
    SHUFFLED_F.Perm FAKE_FIRST_NAMES_F ∧
    SHUFFLED_M.Perm FAKE_FIRST_NAMES_M ∧
    SHUFFLED_L.Perm FAKE_LAST_NAMES := by
  refine ⟨by decide, by decide, by decide⟩

/-- The feminine-ending list _FEMININE_ENDINGS from sanitize.py. -/
def FEMININE_ENDINGS : List String :=
  ["a", "e", "i", "y", "ah", "ie", "na", "la", "ne"]

/-- Embedding of sanitize._guess_gender; for an empty first name the
source draws from the unseeded global generator, modelled by coin. -/
def guessGender (coin : String) (first : String) : String :=
  if first == "" then coin
  else if FEMININE_ENDINGS.any
      (fun e => pyEndsWith e (pyLower (pyStrip first))) then "F"
  else "M"

/-- A value of the name map built by build_name_map. -/
structure FakeName where
  first_name : String
  last_name : String
  full : String
deriving DecidableEq, Repr

/-- The unique-fake-name generation loop of build_name_map (safety limit
of 50 attempts).  Returns the generated name, if found, together with
the updated pool indices. -/
def genLoop (gender : String) (used : List String) :
    Nat → Nat → Nat → Nat → (Option FakeName) × Nat × Nat × Nat
  | fi, mi, li, 0 => (none, fi, mi, li)
  | fi, mi, li, fuel + 1 =>
    let pick : String × Nat × Nat :=
      if gender == "F" then
        (SHUFFLED_F.getD (fi % SHUFFLED_F.length) "", fi + 1, mi)
      else
        (SHUFFLED_M.getD (mi % SHUFFLED_M.length) "", fi, mi + 1)
    let fakeLast := SHUFFLED_L.getD (li % SHUFFLED_L.length) ""
    let fakeFull := pick.1 ++ " " ++ fakeLast
    if used.contains fakeFull then
      genLoop gender used pick.2.1 pick.2.2 (li + 1) fuel
    else
      (some ⟨pick.1, fakeLast, fakeFull⟩, pick.2.1, pick.2.2, li + 1)

/-- The loop state of build_name_map: the map, the used fake names, the
three pool indices and the count of coins consumed for empty names. -/
structure BNState where
  name_map : List (String × FakeName)
  used : List String
  fi : Nat
  mi : Nat
  li : Nat
  ci : Nat
deriving Repr

/-- One iteration of the connection loop in build_name_map.  The gender
guess uses the stripped first name, the coin index advances only for
empty first names, and a failed generation loop still advances the pool
indices, as the Python loop variables do. -/
def buildNameStep (coins : List String) (st : BNState) (conn : Connection) :
    BNState :=
  if pyStrip (pyStrip conn.first_name ++ " " ++ pyStrip conn.last_name) == "" ||
      st.name_map.any (fun p =>
        p.1 == pyStrip (pyStrip conn.first_name ++ " " ++ pyStrip conn.last_name)) then
    st
  else
    match genLoop (guessGender (coins.getD st.ci "M") (pyStrip conn.first_name))
        st.used st.fi st.mi st.li 50 with
    | (none, fi2, mi2, li2) =>
      ⟨st.name_map, st.used, fi2, mi2, li2,
       if pyStrip conn.first_name == "" then st.ci + 1 else st.ci⟩
    | (some fk, fi2, mi2, li2) =>
      ⟨st.name_map ++
         [(pyStrip (pyStrip conn.first_name ++ " " ++ pyStrip conn.last_name), fk)],
       st.used ++ [fk.full], fi2, mi2, li2,
       if pyStrip conn.first_name == "" then st.ci + 1 else st.ci⟩

/-- Embedding of sanitize.build_name_map (Faker absent, fallback pools);
coins supplies the unseeded gender draws for empty first names. -/
def build_name_map (coins : List String) (conns : List Connection) :
    List (String × FakeName) :=
  (conns.foldl (buildNameStep coins) ⟨[], [], 0, 0, 0, 0⟩).name_map

/-- 47 connections with distinct non-empty real names, all guessed
feminine ("Mia" ends in "a"). -/
def conns47 : List Connection :=
  (List.range 47).map (fun i =>
    Connection.mk "Mia" ("L" ++ Nat.repr i) "" "" none "")

set_option maxRecDepth 10000 in
/-- C1 counterexample: with 47 distinct non-empty real names, all
guessed feminine, the feminine first-name index and the last-name index
advance in lockstep, so only 46 distinct fake full names can ever be
generated; the 47th name ("Mia L46") exhausts the 50-attempt loop and
is left unmapped, refuting the claim that every distinct non-empty real
full name is mapped. -/
theorem C1_counterexample :
    conns47.length = 47 ∧
    ("Mia L46" ∈ conns47.map (fun c =>
      pyStrip (pyStrip c.first_name ++ " " ++ pyStrip c.last_name))) ∧
    (build_name_map [] conns47).length = 46 ∧
    (build_name_map [] conns47).find? (fun p => p.1 == "Mia L46") = none := by
  refine ⟨by decide, by decide, by decide, by decide⟩

/-- A name returned by the generation loop is fresh: it was not in the
used set the loop was called with. -/
theorem genLoop_fresh (gender : String) (used : List String) :
    ∀ (fuel fi mi li : Nat) (fk : FakeName) (r : Nat × Nat × Nat),
      genLoop gender used fi mi li fuel = (some fk, r) →
      used.contains fk.full = false := by
  intro fuel
  induction fuel with
  | zero =>
    intro fi mi li fk r h
    simp [genLoop] at h
  | succ n ih =>
    intro fi mi li fk r h
    rw [genLoop] at h
    by_cases hg : (gender == "F") = true
    · simp only [hg, if_true] at h
      by_cases hc : used.contains
          (SHUFFLED_F.getD (fi % SHUFFLED_F.length) "" ++ " " ++
            SHUFFLED_L.getD (li % SHUFFLED_L.length) "") = true
      · rw [if_pos hc] at h
        exact ih _ _ _ _ _ h
      · rw [if_neg hc] at h
        rw [Prod.mk.injEq] at h
        cases Option.some.inj h.1
        simpa using hc
    · have hgb : (gender == "F") = false := by simpa using hg
      simp only [hgb, Bool.false_eq_true, if_false] at h
      by_cases hc : used.contains
          (SHUFFLED_M.getD (mi % SHUFFLED_M.length) "" ++ " " ++
            SHUFFLED_L.getD (li % SHUFFLED_L.length) "") = true
      · rw [if_pos hc] at h
        exact ih _ _ _ _ _ h
      · rw [if_neg hc] at h
        rw [Prod.mk.injEq] at h
        cases Option.some.inj h.1
        simpa using hc

/-- Invariant of the build_name_map loop: map keys are distinct, fake
full names are distinct, and every fake full name is in the used set. -/
def BNInv (st : BNState) : Prop :=
  (st.name_map.map (fun p => p.1)).Nodup ∧
  (st.name_map.map (fun p => p.2.full)).Nodup ∧
  ∀ v ∈ st.name_map.map (fun p => p.2.full), v ∈ st.used

/-- One build_name_map iteration preserves the invariant. -/
theorem buildNameStep_inv (coins : List String) (st : BNState)
    (conn : Connection) (h : BNInv st) :
    BNInv (buildNameStep coins st conn) := by
  rw [buildNameStep]
  by_cases hskip : (pyStrip (pyStrip conn.first_name ++ " " ++
      pyStrip conn.last_name) == "" || st.name_map.any (fun p =>
        p.1 == pyStrip (pyStrip conn.first_name ++ " " ++
          pyStrip conn.last_name))) = true
  · rw [if_pos hskip]
    exact h
  · rw [if_neg hskip]
    cases hgl : genLoop (guessGender (coins.getD st.ci "M")
        (pyStrip conn.first_name)) st.used st.fi st.mi st.li 50 with
    | mk o idx =>
      obtain ⟨fi2, mi2, li2⟩ := idx
      cases o with
      | none =>
        exact ⟨h.1, h.2.1, h.2.2⟩
      | some fk =>
        have hfresh : st.used.contains fk.full = false :=
          genLoop_fresh _ _ _ _ _ _ _ _ hgl
        have hfreshmem : fk.full ∉ st.used := by
          simpa using hfresh
        simp only [Bool.or_eq_true, not_or] at hskip
        have hkey : pyStrip (pyStrip conn.first_name ++ " " ++
            pyStrip conn.last_name) ∉ st.name_map.map (fun p => p.1) := by
          intro hmem
          rcases List.mem_map.mp hmem with ⟨p, hp, hpk⟩
          exact hskip.2 (List.any_eq_true.mpr ⟨p, hp, by simp [hpk]⟩)
        have hfull : fk.full ∉ st.name_map.map (fun p => p.2.full) := by
          intro hmem
          exact hfreshmem (h.2.2 _ hmem)
        refine ⟨?_, ?_, ?_⟩
        · simp only [List.map_append, List.map_cons, List.map_nil]
          rw [List.nodup_append]
          exact ⟨h.1, List.nodup_singleton _, by simpa using hkey⟩
        · simp only [List.map_append, List.map_cons, List.map_nil]
          rw [List.nodup_append]
          exact ⟨h.2.1, List.nodup_singleton _, by simpa using hfull⟩
        · intro v hv
          simp only [List.map_append, List.map_cons, List.map_nil] at hv
          rcases List.mem_append.mp hv with hv | hv
          · exact List.mem_append_left _ (h.2.2 _ hv)
          · exact List.mem_append_right _ hv

/-- The invariant holds after the whole fold. -/
theorem foldl_buildNameStep_inv (coins : List String)
    (conns : List Connection) (st : BNState) (h : BNInv st) :
    BNInv (conns.foldl (buildNameStep coins) st) := by
  induction conns generalizing st with
  | nil => exact h
  | cons c rest ih => exact ih _ (buildNameStep_inv coins st c h)

/-- C1 (amended): build_name_map maps each real name it maps to exactly
one fake name (the map keys are distinct) and no two mapped real names
share a fake full name (the fake-name set has no duplicates); a real
name may be left unmapped when the 50-attempt unique-name search
exhausts, as in the 47-name counterexample. -/
theorem C1_name_map_injective (coins : List String)
    (conns : List Connection) :
    ((build_name_map coins conns).map (fun p => p.1)).Nodup ∧
    ((build_name_map coins conns).map (fun p => p.2.full)).Nodup := by
  have h := foldl_buildNameStep_inv coins conns ⟨[], [], 0, 0, 0, 0⟩
    ⟨List.nodup_nil, List.nodup_nil, by simp⟩
  exact ⟨h.1, h.2.1⟩

/-- A pending skip scans like dropping that many characters. -/
theorem replAux_skip (p : Char) (ps rep : List Char) :
    ∀ (l : List Char) (n : Nat),
      replAux p ps rep n l = replaceScan p ps rep (l.drop n) := by
  intro l
  induction l with
  | nil => intro n; cases n <;> rfl
  | cons c cs ih =>
    intro n
    cases n with
    | zero => rfl
    | succ m =>
      rw [replAux]
      rw [ih m]
      rfl

/-- A pattern is a leading segment of itself followed by anything. -/
theorem startsWithL_self_append (x y : List Char) :
    startsWithL x (x ++ y) = true := by
  induction x with
  | nil => rfl
  | cons c cs ih => simp [startsWithL, ih]

/-- Substring containment is existence of an occurrence position. -/
theorem containsL_iff_exists (pat l : List Char) :
    containsL pat l = true ↔ ∃ i, startsWithL pat (l.drop i) = true := by
  induction l with
  | nil =>
    constructor
    · intro h
      exact ⟨0, h⟩
    · rintro ⟨i, hi⟩
      rw [List.drop_nil] at hi
      exact hi
  | cons c cs ih =>
    rw [containsL]
    simp only [List.tail_cons, Bool.or_eq_true]
    constructor
    · rintro (h | h)
      · exact ⟨0, h⟩
      · rcases ih.mp h with ⟨j, hj⟩
        exact ⟨j + 1, hj⟩
    · rintro ⟨i, hi⟩
      cases i with
      | zero => exact Or.inl hi
      | succ j => exact Or.inr (ih.mpr ⟨j, hi⟩)

/-- Scanning text without any occurrence leaves it unchanged. -/
theorem replaceScan_no_occurrence (p : Char) (ps rep : List Char) :
    ∀ l : List Char, containsL (p :: ps) l = false →
      replaceScan p ps rep l = l := by
  intro l
  induction l with
  | nil => intro h; rfl
  | cons c cs ih =>
    intro h
    rw [containsL] at h
    simp only [List.tail_cons, Bool.or_eq_false_iff] at h
    rw [replaceScan, replAux]
    rw [if_neg (by simp [h.1])]
    have := ih h.2
    rw [replaceScan] at this
    rw [this]

/-- Dropping past a leading segment. -/
theorem drop_append_length (x y : List Char) (j : Nat) :
    (x ++ y).drop (x.length + j) = y.drop j := by
  induction x with
  | nil => simp
  | cons c cs ih => simp [Nat.succ_add, ih]

/-- Scanning text with a unique occurrence of the pattern replaces
exactly that occurrence. -/
theorem replaceScan_single (p : Char) (ps rep : List Char) :
    ∀ (a b : List Char),
      (∀ i, startsWithL (p :: ps) ((a ++ (p :: ps) ++ b).drop i) = true →
        i = a.length) →
      replaceScan p ps rep (a ++ (p :: ps) ++ b) = a ++ rep ++ b := by
  intro a
  induction a with
  | nil =>
    intro b huniq
    have hb : containsL (p :: ps) b = false := by
      by_contra hcon
      have hb2 : containsL (p :: ps) b = true := by
        cases hcb : containsL (p :: ps) b
        · exact absurd hcb hcon
        · rfl
      rcases (containsL_iff_exists (p :: ps) b).mp hb2 with ⟨j, hj⟩
      have hocc : startsWithL (p :: ps)
          (([] ++ (p :: ps) ++ b).drop ((p :: ps).length + j)) = true := by
        rw [List.nil_append, drop_append_length]
        exact hj
      have hzero := huniq _ hocc
      simp at hzero
    rw [List.nil_append, List.cons_append, replaceScan, replAux]
    rw [if_pos (show startsWithL (p :: ps) (p :: (ps ++ b)) = true from
      startsWithL_self_append (p :: ps) b)]
    rw [replAux_skip]
    have hdrop : (ps ++ b).drop ps.length = b := by
      have h0 := drop_append_length ps b 0
      simp only [Nat.add_zero, List.drop_zero] at h0
      exact h0
    rw [hdrop, replaceScan_no_occurrence p ps rep b hb]
    rfl
  | cons x a2 ih =>
    intro b huniq
    have hns : startsWithL (p :: ps)
        ((x :: a2) ++ (p :: ps) ++ b) = false := by
      by_contra hcon
      have h0 : startsWithL (p :: ps)
          (((x :: a2) ++ (p :: ps) ++ b).drop 0) = true := by
        cases hsw : startsWithL (p :: ps) ((x :: a2) ++ (p :: ps) ++ b)
        · exact absurd hsw hcon
        · simpa using hsw
      have := huniq 0 h0
      simp at this
    rw [List.cons_append, List.cons_append, replaceScan, replAux]
    rw [if_neg (by simp_all [List.cons_append])]
    have ihb := ih b (fun i hi => by
      have hocc : startsWithL (p :: ps)
          (((x :: a2) ++ (p :: ps) ++ b).drop (i + 1)) = true := by
        simpa using hi
      have := huniq (i + 1) hocc
      simpa using this)
    rw [replaceScan] at ihb
    rw [ihb]
    rfl

/-- All positions at which the pattern occurs in the text. -/
def occPositions (pat l : List Char) : List Nat :=
  (List.range (l.length + 1)).filter (fun i => startsWithL pat (l.drop i))

/-- Every occurrence of a non-empty pattern is recorded in
occPositions. -/
theorem occPositions_complete (p : Char) (ps l : List Char) (i : Nat)
    (h : startsWithL (p :: ps) (l.drop i) = true) :
    i ∈ occPositions (p :: ps) l := by
  have hle : i ≤ l.length := by
    by_contra hgt
    have : l.drop i = [] := List.drop_eq_nil_of_le (by omega)
    rw [this] at h
    exact absurd h (by simp [startsWithL])
  exact List.mem_filter.mpr ⟨List.mem_range.mpr (by omega), h⟩

/-- JSON values, modelling the data dict passed to inject_data. -/
inductive Json where
  | null : Json
  | bool (b : Bool) : Json
  | num (n : Int) : Json
  | str (s : String) : Json
  | arr (xs : List Json) : Json
  | obj (kvs : List (String × Json)) : Json

/-- Hexadecimal digit character for JSON control-character escapes. -/
def hexDigit (n : Nat) : Char :=
  if n < 10 then Char.ofNat (48 + n) else Char.ofNat (87 + n)

/-- JSON string-character escaping as json.dumps with
ensure_ascii=False: quote, backslash and control characters escaped,
everything else verbatim. -/
def jsonEscapeChar (c : Char) : List Char :=
  if c == '"' then ['\\', '"']
  else if c == '\\' then ['\\', '\\']
  else if c == '\n' then ['\\', 'n']
  else if c == '\t' then ['\\', 't']
  else if c == '\r' then ['\\', 'r']
  else if c == '\x08' then ['\\', 'b']
  else if c == '\x0c' then ['\\', 'f']
  else if c.toNat < 32 then
    ['\\', 'u', '0', '0', hexDigit (c.toNat / 16), hexDigit (c.toNat % 16)]
  else [c]

/-- A JSON string literal with quotes and escapes. -/
def jsonEscape (s : String) : String :=
  String.mk (('"' :: (s.toList.map jsonEscapeChar).flatten) ++ ['"'])

mutual

/-- json.dumps with the default separators (", " and ": ") used when no
indent is given, ensure_ascii=False. -/
def dumpsJson : Json → String
  | .null => "null"
  | .bool b => if b then "true" else "false"
  | .num n => if n < 0 then "-" ++ Nat.repr n.natAbs else Nat.repr n.natAbs
  | .str s => jsonEscape s
  | .arr xs => "[" ++ dumpsList xs ++ "]"
  | .obj kvs => "\x7b" ++ dumpsObj kvs ++ "\x7d"

/-- Comma-joined array elements. -/
def dumpsList : List Json → String
  | [] => ""
  | [x] => dumpsJson x
  | x :: y :: rest => dumpsJson x ++ ", " ++ dumpsList (y :: rest)

/-- Comma-joined key-value pairs. -/
def dumpsObj : List (String × Json) → String
  | [] => ""
  | [kv] => jsonEscape kv.1 ++ ": " ++ dumpsJson kv.2
  | kv :: y :: rest =>
    jsonEscape kv.1 ++ ": " ++ dumpsJson kv.2 ++ ", " ++ dumpsObj (y :: rest)

end

/-- The DATA placeholder of the generate_viz templates. -/
def DATA_PH : String := "\x7b\x7bDATA\x7d\x7d"

/-- The THEME_CSS placeholder of the generate_viz templates. -/
def THEME_PH : String := "\x7b\x7bTHEME_CSS\x7d\x7d"

/-- The GENERATED_AT placeholder of the generate_viz templates. -/
def GEN_PH : String := "\x7b\x7bGENERATED_AT\x7d\x7d"

/-- Embedding of generate_viz.inject_data; generated_at stands for the
datetime.now ISO timestamp string. -/
def inject_data (template_html : String) (data_dict : Json)
    (theme_css : String) (generated_at : String) : String :=
  pyReplace
    (pyReplace (pyReplace template_html DATA_PH (dumpsJson data_dict))
      THEME_PH theme_css)
    GEN_PH generated_at

/-- String append concatenates the character lists. -/
theorem str_toList_append (a b : String) :
    (a ++ b).toList = a.toList ++ b.toList := rfl

/-- str.replace with a non-occurring nonempty pattern is the identity. -/
theorem pyReplace_no_occ (t pat rep : String) (p : Char) (ps : List Char)
    (hp : pat.toList = p :: ps)
    (h : containsL pat.toList t.toList = false) :
    pyReplace t pat rep = t := by
  simp only [pyReplace, hp]
  rw [hp] at h
  rw [replaceScan_no_occurrence p ps rep.toList t.toList h]
  rfl

/-- str.replace with a uniquely-occurring pattern substitutes exactly
that occurrence. -/
theorem pyReplace_single (a b pat rep : String) (p : Char) (ps : List Char)
    (hp : pat.toList = p :: ps)
    (hocc : occPositions pat.toList ((a ++ pat ++ b).toList) =
      [a.toList.length]) :
    pyReplace (a ++ pat ++ b) pat rep = a ++ rep ++ b := by
  simp only [pyReplace, hp]
  have htl : (a ++ pat ++ b).toList = a.toList ++ (p :: ps) ++ b.toList := by
    rw [str_toList_append, str_toList_append, hp]
  have hocc2 : occPositions (p :: ps)
      (a.toList ++ (p :: ps) ++ b.toList) = [a.toList.length] := by
    rw [← htl, ← hp]
    exact hocc
  have huniq : ∀ i, startsWithL (p :: ps)
      ((a.toList ++ (p :: ps) ++ b.toList).drop i) = true →
      i = a.toList.length := by
    intro i hi
    have hmem := occPositions_complete p ps
      (a.toList ++ (p :: ps) ++ b.toList) i hi
    rw [hocc2] at hmem
    simpa using hmem
  rw [htl, replaceScan_single p ps rep.toList a.toList b.toList huniq]
  rfl

/-- Puts a character in front of the first chunk of a chunk list. -/
def consHead (c : Char) : List (List Char) → List (List Char)
  | [] => [[c]]
  | h :: t => (c :: h) :: t

/-- Chunk scanner paired with replAux: splits the text at the
left-to-right non-overlapping occurrences of the nonempty pattern
p :: ps.  A positive skip counter means that many characters still
belong to a matched occurrence and are dropped. -/
def splitAux (p : Char) (ps : List Char) : Nat → List Char → List (List Char)
  | _, [] => [[]]
  | skip + 1, _ :: cs => splitAux p ps skip cs
  | 0, c :: cs =>
    if startsWithL (p :: ps) (c :: cs) then
      [] :: splitAux p ps ps.length cs
    else
      consHead c (splitAux p ps 0 cs)

/-- The chunks of a string between the left-to-right non-overlapping
occurrences of a pattern string, as scanned by pyReplace. -/
def splitPH (pat s : String) : List (List Char) :=
  match pat.toList with
  | [] => [s.toList]
  | p :: ps => splitAux p ps 0 s.toList

/-- Joins a chunk list, inserting the separator between chunks. -/
def interL (sep : List Char) : List (List Char) → List Char
  | [] => []
  | [x] => x
  | x :: y :: zs => x ++ sep ++ interL sep (y :: zs)

/-- The claim reading of inject_data: one pass over the template in
which every occurrence of each of the three placeholders is replaced by
its substitution text.  No two placeholder occurrences can overlap, so
this is the simultaneous every-occurrence substitution the claim
describes. -/
def claimInjectAux (r1 r2 r3 : List Char) : Nat → List Char → List Char
  | _, [] => []
  | skip + 1, _ :: cs => claimInjectAux r1 r2 r3 skip cs
  | 0, c :: cs =>
    if startsWithL DATA_PH.toList (c :: cs) then
      r1 ++ claimInjectAux r1 r2 r3 (DATA_PH.toList.length - 1) cs
    else if startsWithL THEME_PH.toList (c :: cs) then
      r2 ++ claimInjectAux r1 r2 r3 (THEME_PH.toList.length - 1) cs
    else if startsWithL GEN_PH.toList (c :: cs) then
      r3 ++ claimInjectAux r1 r2 r3 (GEN_PH.toList.length - 1) cs
    else
      c :: claimInjectAux r1 r2 r3 0 cs

/-- The template with every occurrence of each placeholder replaced by
the JSON serialization, the CSS text and the timestamp respectively, as
the claim describes inject_data. -/
def claimInject (t : String) (d : Json) (css gen : String) : String :=
  String.mk (claimInjectAux (dumpsJson d).toList css.toList gen.toList 0 t.toList)

/-- The chunk scanner never returns an empty chunk list. -/
theorem splitAux_ne_nil (p : Char) (ps : List Char) :
    ∀ (k : Nat) (s : List Char), splitAux p ps k s ≠ [] := by
  intro k s
  induction s generalizing k with
  | nil => cases k <;> simp [splitAux]
  | cons c cs ih =>
    cases k with
    | succ m => rw [splitAux]; exact ih m
    | zero =>
      rw [splitAux]
      by_cases hsw : startsWithL (p :: ps) (c :: cs) = true
      · rw [if_pos hsw]
        exact List.cons_ne_nil _ _
      · rw [if_neg hsw]
        obtain ⟨h1, t1, heq⟩ := List.exists_cons_of_ne_nil (ih 0)
        rw [heq]
        exact List.cons_ne_nil _ _

/-- Joining after extending the first chunk by a character. -/
theorem interL_cons_head (r : List Char) (c : Char) (h : List Char)
    (t : List (List Char)) :
    interL r ((c :: h) :: t) = c :: interL r (h :: t) := by
  cases t <;> rfl

/-- A join starts with its first chunk. -/
theorem interL_head_extend (r h : List Char) (t : List (List Char)) :
    ∃ e, interL r (h :: t) = h ++ e := by
  cases t with
  | nil => exact ⟨[], by simp [interL]⟩
  | cons y z => exact ⟨r ++ interL r (y :: z), by simp [interL, List.append_assoc]⟩

/-- A matched text decomposes as the pattern followed by the rest. -/
theorem startsWithL_drop_eq :
    ∀ (x s : List Char), startsWithL x s = true → s = x ++ s.drop x.length := by
  intro x
  induction x with
  | nil => intro s h; simp
  | cons a as ih =>
    intro s h
    cases s with
    | nil => simp [startsWithL] at h
    | cons c cs =>
      rw [startsWithL, Bool.and_eq_true] at h
      have hac : a = c := eq_of_beq h.1
      have hcs := ih cs h.2
      simp only [List.length_cons, List.drop_succ_cons, List.cons_append]
      rw [← hac]
      exact congrArg (List.cons a) hcs

/-- A match survives appending text on the right. -/
theorem startsWithL_append_mono :
    ∀ (x a e : List Char), startsWithL x a = true →
      startsWithL x (a ++ e) = true := by
  intro x
  induction x with
  | nil => intro a e h; rfl
  | cons b bs ih =>
    intro a e h
    cases a with
    | nil => simp [startsWithL] at h
    | cons c cs =>
      rw [startsWithL, Bool.and_eq_true] at h
      rw [List.cons_append, startsWithL, Bool.and_eq_true]
      exact ⟨h.1, ih cs e h.2⟩

/-- A pending skip scans the chunks of the text past the skipped part. -/
theorem splitAux_skip (p : Char) (ps : List Char) :
    ∀ (q s : List Char), splitAux p ps q.length (q ++ s) = splitAux p ps 0 s := by
  intro q
  induction q with
  | nil => intro s; rfl
  | cons a as ih =>
    intro s
    rw [List.cons_append, List.length_cons, splitAux]
    exact ih s

/-- At a match the head character is the pattern head, the tail starts
with the pattern tail, and the skipping scan equals a fresh scan of the
rest. -/
theorem splitAux_match_step (p : Char) (ps : List Char) (c : Char)
    (cs : List Char) (hsw : startsWithL (p :: ps) (c :: cs) = true) :
    c = p ∧ cs = ps ++ cs.drop ps.length ∧
      splitAux p ps ps.length cs = splitAux p ps 0 (cs.drop ps.length) := by
  have hdec := startsWithL_drop_eq (p :: ps) (c :: cs) hsw
  simp only [List.length_cons, List.drop_succ_cons, List.cons_append] at hdec
  have hc : c = p := (List.cons_eq_cons.mp hdec).1
  have hcs : cs = ps ++ cs.drop ps.length := (List.cons_eq_cons.mp hdec).2
  refine ⟨hc, hcs, ?_⟩
  conv_lhs => rw [hcs]
  exact splitAux_skip p ps ps (cs.drop ps.length)

/-- Joining the chunks with the pattern itself reconstructs the text:
the scanner only cuts at genuine occurrences. -/
theorem splitAux_reconstruct (p : Char) (ps : List Char) :
    ∀ (n : Nat) (s : List Char), s.length ≤ n →
      interL (p :: ps) (splitAux p ps 0 s) = s := by
  intro n
  induction n with
  | zero =>
    intro s hs
    have hnil : s = [] := List.length_eq_zero.mp (Nat.le_zero.mp hs)
    subst hnil
    rfl
  | succ m ih =>
    intro s hs
    cases s with
    | nil => rfl
    | cons c cs =>
      have hcs_le : cs.length ≤ m := by
        simp only [List.length_cons] at hs
        omega
      rw [splitAux]
      by_cases hsw : startsWithL (p :: ps) (c :: cs) = true
      · rw [if_pos hsw]
        obtain ⟨hc, hcs, hskip⟩ := splitAux_match_step p ps c cs hsw
        rw [hskip]
        obtain ⟨h1, t1, heq⟩ :=
          List.exists_cons_of_ne_nil (splitAux_ne_nil p ps 0 (cs.drop ps.length))
        rw [heq]
        rw [show interL (p :: ps) ([] :: h1 :: t1) =
            (p :: ps) ++ interL (p :: ps) (h1 :: t1) from rfl]
        rw [← heq]
        rw [ih (cs.drop ps.length) (by
          have := List.length_drop ps.length cs
          omega)]
        rw [List.cons_append, hc, ← hcs]
      · rw [if_neg hsw]
        obtain ⟨h1, t1, heq⟩ :=
          List.exists_cons_of_ne_nil (splitAux_ne_nil p ps 0 cs)
        rw [heq]
        rw [show consHead c (h1 :: t1) = (c :: h1) :: t1 from rfl]
        rw [interL_cons_head]
        rw [← heq]
        rw [ih cs hcs_le]

/-- No chunk contains an occurrence of the pattern: the scanner finds
every occurrence. -/
theorem splitAux_no_occ (p : Char) (ps : List Char) :
    ∀ (n : Nat) (s : List Char), s.length ≤ n →
      ∀ x ∈ splitAux p ps 0 s, containsL (p :: ps) x = false := by
  intro n
  induction n with
  | zero =>
    intro s hs x hx
    have hnil : s = [] := List.length_eq_zero.mp (Nat.le_zero.mp hs)
    subst hnil
    have hxe : x = [] := by simpa [splitAux] using hx
    subst hxe
    rfl
  | succ m ih =>
    intro s hs x hx
    cases s with
    | nil =>
      have hxe : x = [] := by simpa [splitAux] using hx
      subst hxe
      rfl
    | cons c cs =>
      have hcs_le : cs.length ≤ m := by
        simp only [List.length_cons] at hs
        omega
      rw [splitAux] at hx
      by_cases hsw : startsWithL (p :: ps) (c :: cs) = true
      · rw [if_pos hsw] at hx
        obtain ⟨hc, hcs, hskip⟩ := splitAux_match_step p ps c cs hsw
        rw [hskip] at hx
        rcases List.mem_cons.mp hx with hxe | hxm
        · subst hxe
          rfl
        · exact ih (cs.drop ps.length)
            (by have := List.length_drop ps.length cs; omega) x hxm
      · rw [if_neg hsw] at hx
        obtain ⟨h1, t1, heq⟩ :=
          List.exists_cons_of_ne_nil (splitAux_ne_nil p ps 0 cs)
        rw [heq, show consHead c (h1 :: t1) = (c :: h1) :: t1 from rfl] at hx
        rcases List.mem_cons.mp hx with hxe | hxm
        · subst hxe
          have hh1 : containsL (p :: ps) h1 = false :=
            ih cs hcs_le h1 (by rw [heq]; exact List.mem_cons_self h1 t1)
          have hsw2 : startsWithL (p :: ps) (c :: h1) = false := by
            cases hb : startsWithL (p :: ps) (c :: h1) with
            | false => rfl
            | true =>
              exfalso
              have hrec := splitAux_reconstruct p ps cs.length cs (Nat.le_refl _)
              rw [heq] at hrec
              obtain ⟨e, he⟩ := interL_head_extend (p :: ps) h1 t1
              have hcse : cs = h1 ++ e := by rw [← hrec, he]
              have hmono := startsWithL_append_mono (p :: ps) (c :: h1) e hb
              rw [show (c :: h1) ++ e = c :: (h1 ++ e) from rfl, ← hcse] at hmono
              exact hsw hmono
          rw [containsL]
          simp only [List.tail_cons]
          rw [hsw2, hh1]
          rfl
        · exact ih cs hcs_le x (by rw [heq]; exact List.mem_cons_of_mem _ hxm)

/-- The replacing scan joins the chunks with the replacement text. -/
theorem replAux_eq_interL (p : Char) (ps rep : List Char) :
    ∀ (s : List Char) (k : Nat),
      replAux p ps rep k s = interL rep (splitAux p ps k s) := by
  intro s
  induction s with
  | nil => intro k; cases k <;> rfl
  | cons c cs ih =>
    intro k
    cases k with
    | succ m =>
      rw [replAux, splitAux]
      exact ih m
    | zero =>
      rw [replAux, splitAux]
      by_cases hsw : startsWithL (p :: ps) (c :: cs) = true
      · rw [if_pos hsw, if_pos hsw]
        obtain ⟨h1, t1, heq⟩ :=
          List.exists_cons_of_ne_nil (splitAux_ne_nil p ps ps.length cs)
        rw [heq]
        rw [show interL rep ([] :: h1 :: t1) =
            rep ++ interL rep (h1 :: t1) from rfl]
        rw [← heq]
        rw [ih ps.length]
      · rw [if_neg hsw, if_neg hsw]
        obtain ⟨h1, t1, heq⟩ :=
          List.exists_cons_of_ne_nil (splitAux_ne_nil p ps 0 cs)
        rw [heq, show consHead c (h1 :: t1) = (c :: h1) :: t1 from rfl]
        rw [interL_cons_head]
        rw [← heq]
        rw [ih 0]

/-- Full characterization of one str.replace pass with a nonempty
pattern: the text splits into chunks at the left-to-right
non-overlapping occurrences of the pattern (joining the chunks with the
pattern reconstructs the text), no chunk retains an occurrence, and the
result joins the same chunks with the replacement text. -/
theorem pyReplace_chunks (t pat rep : String) (p : Char) (ps : List Char)
    (hp : pat.toList = p :: ps) :
    String.mk (interL pat.toList (splitPH pat t)) = t ∧
    (∀ c ∈ splitPH pat t, containsL pat.toList c = false) ∧
    pyReplace t pat rep = String.mk (interL rep.toList (splitPH pat t)) := by
  have hsp : splitPH pat t = splitAux p ps 0 t.toList := by
    simp only [splitPH, hp]
  refine ⟨?_, ?_, ?_⟩
  · rw [hsp, hp]
    rw [splitAux_reconstruct p ps t.toList.length t.toList (Nat.le_refl _)]
    rfl
  · rw [hsp, hp]
    exact splitAux_no_occ p ps t.toList.length t.toList (Nat.le_refl _)
  · rw [hsp]
    have hpr : pyReplace t pat rep =
        String.mk (replaceScan p ps rep.toList t.toList) := by
      simp only [pyReplace, hp]
    rw [hpr, replaceScan, replAux_eq_interL p ps rep.toList t.toList 0]

/-- C8 counterexample: the three replaces are successive passes, not a
simultaneous substitution on the template.  With the template holding a
single DATA placeholder and the data dict a JSON string whose text
contains the GENERATED_AT placeholder, the claim asks for the template
with that one occurrence replaced by the JSON serialization; the code
additionally rewrites the GENERATED_AT text that arrived inside the
JSON, because the third pass scans the already-substituted string. -/
theorem C8_counterexample :
    inject_data "\x7b\x7bDATA\x7d\x7d" (Json.str "x\x7b\x7bGENERATED_AT\x7d\x7d")
        "body \x7b color: red \x7d" "2024-01-12" = "\"x2024-01-12\"" ∧
    claimInject "\x7b\x7bDATA\x7d\x7d" (Json.str "x\x7b\x7bGENERATED_AT\x7d\x7d")
        "body \x7b color: red \x7d" "2024-01-12" =
      "\"x\x7b\x7bGENERATED_AT\x7d\x7d\"" ∧
    ("\"x2024-01-12\"" : String) ≠ "\"x\x7b\x7bGENERATED_AT\x7d\x7d\"" := by
  refine ⟨by decide, by decide, by decide⟩

/-- C8 (amended): inject_data applies three successive replace-all
passes.  Every template splits at the left-to-right occurrences of
DATA (joining the chunks with the placeholder reconstructs the
template), no chunk retains an occurrence, and the first pass joins the
chunks with the JSON serialization of the data dict; the second pass
does the same to that result for THEME_CSS and the CSS text, the third
for GENERATED_AT and the timestamp, whose join is the value of
inject_data; a template containing none of the three placeholders is
returned unchanged. -/
theorem C8_inject_data_spec (t : String) (d : Json) (css gen : String) :
    (String.mk (interL DATA_PH.toList (splitPH DATA_PH t)) = t ∧
     (∀ c ∈ splitPH DATA_PH t, containsL DATA_PH.toList c = false) ∧
     pyReplace t DATA_PH (dumpsJson d) =
       String.mk (interL (dumpsJson d).toList (splitPH DATA_PH t))) ∧
    (String.mk (interL THEME_PH.toList
        (splitPH THEME_PH (pyReplace t DATA_PH (dumpsJson d)))) =
       pyReplace t DATA_PH (dumpsJson d) ∧
     (∀ c ∈ splitPH THEME_PH (pyReplace t DATA_PH (dumpsJson d)),
       containsL THEME_PH.toList c = false) ∧
     pyReplace (pyReplace t DATA_PH (dumpsJson d)) THEME_PH css =
       String.mk (interL css.toList
         (splitPH THEME_PH (pyReplace t DATA_PH (dumpsJson d))))) ∧
    (String.mk (interL GEN_PH.toList (splitPH GEN_PH
        (pyReplace (pyReplace t DATA_PH (dumpsJson d)) THEME_PH css))) =
       pyReplace (pyReplace t DATA_PH (dumpsJson d)) THEME_PH css ∧
     (∀ c ∈ splitPH GEN_PH
         (pyReplace (pyReplace t DATA_PH (dumpsJson d)) THEME_PH css),
       containsL GEN_PH.toList c = false) ∧
     inject_data t d css gen =
       String.mk (interL gen.toList (splitPH GEN_PH
         (pyReplace (pyReplace t DATA_PH (dumpsJson d)) THEME_PH css)))) ∧
    (containsL DATA_PH.toList t.toList = false →
     containsL THEME_PH.toList t.toList = false →
     containsL GEN_PH.toList t.toList = false →
     inject_data t d css gen = t) := by
  refine ⟨?_, ?_, ?_, ?_⟩
  · exact pyReplace_chunks t DATA_PH (dumpsJson d)
      '\x7b' "\x7bDATA\x7d\x7d".toList rfl
  · exact pyReplace_chunks (pyReplace t DATA_PH (dumpsJson d)) THEME_PH css
      '\x7b' "\x7bTHEME_CSS\x7d\x7d".toList rfl
  · have h := pyReplace_chunks
      (pyReplace (pyReplace t DATA_PH (dumpsJson d)) THEME_PH css) GEN_PH gen
      '\x7b' "\x7bGENERATED_AT\x7d\x7d".toList rfl
    exact ⟨h.1, h.2.1, h.2.2⟩
  · intro h1 h2 h3
    rw [inject_data,
      pyReplace_no_occ t DATA_PH (dumpsJson d) '\x7b' "\x7bDATA\x7d\x7d".toList rfl h1,
      pyReplace_no_occ t THEME_PH css '\x7b' "\x7bTHEME_CSS\x7d\x7d".toList rfl h2,
      pyReplace_no_occ t GEN_PH gen '\x7b' "\x7bGENERATED_AT\x7d\x7d".toList rfl h3]

/-- C8 witness: the unchanged part applied at a placeholder-free
template. -/
theorem C8_inject_data_spec_witness :
    inject_data "plain template" (Json.obj [("k", Json.num 1)]) "css" "now" =
      "plain template" :=
  (C8_inject_data_spec "plain template" (Json.obj [("k", Json.num 1)])
      "css" "now").2.2.2
    (by decide) (by decide) (by decide)

/-- toNat of Char.ofNat for code points below the surrogate range. -/
theorem char_toNat_ofNat_valid (n : Nat) (h : n < 55296) :
    (Char.ofNat n).toNat = n := by
  unfold Char.ofNat
  rw [dif_pos (Or.inl h)]
  rfl

/-- ASCII lowercasing is idempotent. -/
theorem pyLowerChar_idem (c : Char) :
    pyLowerChar (pyLowerChar c) = pyLowerChar c := by
  unfold pyLowerChar
  by_cases h : 65 ≤ c.toNat ∧ c.toNat ≤ 90
  · rw [if_pos h]
    have hval : (Char.ofNat (c.toNat + 32)).toNat = c.toNat + 32 :=
      char_toNat_ofNat_valid _ (by omega)
    rw [if_neg (by rw [hval]; omega)]
  · rw [if_neg h, if_neg h]

/-- Python str.lower is idempotent. -/
theorem pyLower_idem (s : String) : pyLower (pyLower s) = pyLower s := by
  unfold pyLower
  congr 1
  show (s.toList.map pyLowerChar).map pyLowerChar = s.toList.map pyLowerChar
  rw [List.map_map]
  exact List.map_congr_left (fun a _ => pyLowerChar_idem a)

/-- Python str.lower preserves the character count. -/
theorem pyLower_length (s : String) : (pyLower s).length = s.length := by
  show (s.toList.map pyLowerChar).length = s.length
  rw [List.length_map]
  rfl

/-- The spam heuristic is invariant under pre-lowering the content, so
classifying the lowered copy (as sanitize_messages does) agrees with
classifying the original. -/
theorem is_spam_pyLower (c : String) : is_spam (pyLower c) = is_spam c := by
  unfold is_spam countSpamMatches
  rw [pyLower_idem, pyLower_length]

/-- FAKE_MESSAGES_GENUINE from sanitize.py. -/
def FAKE_MESSAGES_GENUINE : List String :=
  ["Great to connect! Would love to chat about your work in the space.",
   "Thanks for reaching out. Happy to discuss further next week.",
   "Really enjoyed your recent post. Let me know if you want to collaborate.",
   "Following up on our conversation at the conference last month.",
   "Appreciate the introduction. Looking forward to connecting.",
   "Would you be open to a quick call? I think there could be some synergy.",
   "Thanks for the recommendation! Excited about the opportunity.",
   "Just saw your company announcement. Congratulations on the milestone!",
   "Been meaning to reach out. Your perspective on this would be valuable.",
   "Let me know when you have time for that coffee chat."]

/-- FAKE_MESSAGES_NOISE from sanitize.py. -/
def FAKE_MESSAGES_NOISE : List String :=
  ["I noticed your profile and thought you might be interested in...",
   "We\x27re hiring for a role that seems like a perfect fit for you.",
   "I\x27d love to connect and share an exciting opportunity.",
   "Hope this finds you well. I came across your profile and...",
   "Limited time offer: exclusive access to our platform.",
   "Are you open to exploring new opportunities?",
   "I help professionals like you achieve their career goals.",
   "Quick question: are you satisfied with your current CRM?",
   "Book a free consultation to learn how we can help.",
   "Just following up on my previous message about the opportunity."]

/-- Embedding of sanitize._hash_to_name, with the md5 hex digest (as an
integer) abstracted into a parameter. -/
def hash_to_name (md5 : String → Nat) (real_name : String) : String :=
  let h := md5 real_name
  let firstPool := FAKE_FIRST_NAMES_F ++ FAKE_FIRST_NAMES_M
  firstPool.getD (h % firstPool.length) "" ++ " " ++
    FAKE_LAST_NAMES.getD ((h / 256) % FAKE_LAST_NAMES.length) ""

/-- The per-message transformation of sanitize_messages: the k-th
message consumes the k-th seeded rng.choice draw. -/
def sanitizeOneMsg (md5 : String → Nat) (picks : Nat → Nat)
    (name_map : Option (List (String × FakeName))) (k : Nat)
    (msg : Message) : Message :=
  let sender :=
    match name_map with
    | none => msg.sender
    | some nm =>
      if nm.isEmpty || msg.sender == "" then msg.sender
      else
        match (nm.find? (fun p => p.1 == pyStrip msg.sender)).map
            (fun p => p.2) with
        | some fk => fk.full
        | none => hash_to_name md5 (pyStrip msg.sender)
  let pool := if is_spam (pyLower msg.content) then FAKE_MESSAGES_NOISE
    else FAKE_MESSAGES_GENUINE
  { msg with
    sender := sender,
    content := pool.getD (picks k % pool.length) "",
    subject := if msg.subject == "" then msg.subject else "Re: Connection" }

/-- Embedding of sanitize.sanitize_messages (a deep copy of the list is
transformed; a falsy name_map, None or empty, skips sender
replacement). -/
def sanitize_messages (md5 : String → Nat) (picks : Nat → Nat)
    (name_map : Option (List (String × FakeName))) (msgs : List Message) :
    List Message :=
  msgs.enum.map (fun km => sanitizeOneMsg md5 picks name_map km.1 km.2)

/-- An index reduced modulo the length selects an element of a
non-empty list. -/
theorem getD_mod_mem (l : List String) (h : l ≠ []) (i : Nat) :
    l.getD (i % l.length) "" ∈ l := by
  have hlen : 0 < l.length := List.length_pos.mpr h
  have hlt : i % l.length < l.length := Nat.mod_lt _ hlen
  rw [List.getD_eq_getElem l "" hlt]
  exact List.getElem_mem hlt

/-- C9: sanitize_messages returns a list of the same length in which
each message keeps its date and conversation_id, while the content is
rewritten to an element of the fixed noise pool when the spam heuristic
classifies the original content as noise and to an element of the fixed
genuine pool otherwise. -/
theorem C9_sanitize_messages_spec (md5 : String → Nat) (picks : Nat → Nat)
    (name_map : Option (List (String × FakeName))) (msgs : List Message) :
    (sanitize_messages md5 picks name_map msgs).length = msgs.length ∧
    (∀ k : Nat,
      ((sanitize_messages md5 picks name_map msgs)[k]?).map Message.date =
        (msgs[k]?).map Message.date ∧
      ((sanitize_messages md5 picks name_map msgs)[k]?).map
          Message.conversation_id =
        (msgs[k]?).map Message.conversation_id) ∧
    (∀ (k : Nat) (orig san : Message), msgs[k]? = some orig →
      (sanitize_messages md5 picks name_map msgs)[k]? = some san →
      (is_spam orig.content = true → san.content ∈ FAKE_MESSAGES_NOISE) ∧
      (is_spam orig.content = false →
        san.content ∈ FAKE_MESSAGES_GENUINE)) := by
  have hidx : ∀ k : Nat, (sanitize_messages md5 picks name_map msgs)[k]? =
      (msgs[k]?).map (sanitizeOneMsg md5 picks name_map k) := by
    intro k
    rw [sanitize_messages, List.getElem?_map, List.getElem?_enum,
      Option.map_map]
    rfl
  refine ⟨?_, ?_, ?_⟩
  · rw [sanitize_messages, List.length_map, List.enum_length]
  · intro k
    rw [hidx]
    cases msgs[k]? with
    | none => exact ⟨rfl, rfl⟩
    | some m => exact ⟨rfl, rfl⟩
  · intro k orig san horig hsan
    rw [hidx, horig] at hsan
    have hfs : sanitizeOneMsg md5 picks name_map k orig = san := by
      simpa using hsan
    have hcontent : san.content =
        (if is_spam (pyLower orig.content) then FAKE_MESSAGES_NOISE
          else FAKE_MESSAGES_GENUINE).getD
          (picks k % (if is_spam (pyLower orig.content) then
            FAKE_MESSAGES_NOISE else FAKE_MESSAGES_GENUINE).length) "" := by
      rw [← hfs]
      rfl
    constructor
    · intro hspam
      rw [hcontent, is_spam_pyLower, hspam]
      simp only [if_true]
      exact getD_mod_mem _ (by decide) _
    · intro hspam
      rw [hcontent, is_spam_pyLower, hspam]
      simp only [Bool.false_eq_true, if_false]
      exact getD_mod_mem _ (by decide) _

/-- C9 witness: a two-message list, one spam and one genuine. -/
theorem C9_sanitize_messages_spec_witness :
    (sanitize_messages (fun _ => 0) (fun _ => 3) none
        [⟨some "c1", "Ada", none, "s",
          "We\x27re hiring top talent for an exciting opportunity, with demo access and a free trial for passive candidates everywhere."⟩,
         ⟨none, "Bea", none, "s2", "See you at the conference."⟩]).length = 2 ∧
    is_spam
      "We\x27re hiring top talent for an exciting opportunity, with demo access and a free trial for passive candidates everywhere." = true ∧
    is_spam "See you at the conference." = false ∧
    (∀ san : Message,
      (sanitize_messages (fun _ => 0) (fun _ => 3) none
        [⟨some "c1", "Ada", none, "s",
          "We\x27re hiring top talent for an exciting opportunity, with demo access and a free trial for passive candidates everywhere."⟩,
         ⟨none, "Bea", none, "s2", "See you at the conference."⟩])[0]? = some san →
      san.content ∈ FAKE_MESSAGES_NOISE) := by
  refine ⟨?_, by decide, by decide, ?_⟩
  · exact (C9_sanitize_messages_spec (fun _ => 0) (fun _ => 3) none _).1
  · intro san hsan
    exact ((C9_sanitize_messages_spec (fun _ => 0) (fun _ => 3) none _).2.2
      0 _ san rfl hsan).1 (by decide)
